import Mathlib

/-!
Verification of the reviewer-assignment service
(internal/domain/service.go, internal/repo/postgres.go).

The relational store is modelled as an explicit state (`DB`), one record per
table row.  Transactions are modelled by a pair of states (`TxState`): `base`
is the committed database, `txdb` is the view of the currently open
transaction (committed rows plus the transaction's own uncommitted writes).
In the Go code every repository *read* goes through `r.db` (the connection
pool, hence a different connection than the open transaction), so reads made
inside `WithTx` observe `base`, not `txdb`; statements executed through `tx`
operate on `txdb`; statements executed through `r.db` autocommit and are
therefore applied to both views.  `WithTx` commits `txdb` on success and
discards it on error, which models BEGIN/COMMIT/ROLLBACK under read-committed
isolation.

`now()` is modelled by the numeric field `DB.clock`.  The SQL `md5` ranking
function of PickReviewersFromTeam is an uninterpreted deterministic parameter
`md5 : String → String`, exactly the "fixed deterministic ranking function"
role it plays in the code; concrete instances are used for evaluation.
-/

inductive PRStatus where
  | OPEN
  | MERGED
deriving DecidableEq, Repr

structure User where
  userId : String
  username : String
  teamName : String
  isActive : Bool
deriving DecidableEq, Repr

structure PullRequest where
  id : String
  name : String
  authorId : String
  status : PRStatus
  assignedReviewers : List String
  createdAt : Option Nat
  mergedAt : Option Nat
deriving DecidableEq, Repr

structure OpenAssignment where
  prId : String
  authorId : String
  oldUserId : String
  oldUserTeam : String
deriving DecidableEq, Repr

structure BulkReassignOutcome where
  prId : String
  oldUserId : String
  action : String
  replacedBy : Option String
deriving DecidableEq, Repr

structure BulkDeactivateResult where
  team : String
  deactivated : List String
  reassignments : List BulkReassignOutcome
deriving DecidableEq, Repr

structure AssignmentStats where
  byUser : Option (List (String × Nat))
  byPR : Option (List (String × Nat))
deriving DecidableEq, Repr

/-- One database state: a record per table of the schema in
migrations/001_init.up.sql, plus the clock that models `now()`. -/
structure DB where
  teams : List String
  users : List User
  prs : List PullRequest
  reviewers : List (String × String)
  clock : Nat
deriving DecidableEq, Repr

/-- `base` is the committed database (what reads through `r.db` see);
`txdb` is the open transaction's view (committed rows plus its own writes). -/
structure TxState where
  base : DB
  txdb : DB
deriving DecidableEq, Repr

/- ## Error taxonomy (internal/domain/models.go, service.go) -/

def ErrTeamExists : String := "TEAM_EXISTS"
def ErrPRExists : String := "PR_EXISTS"
def ErrPRMerged : String := "PR_MERGED"
def ErrNotAssigned : String := "NOT_ASSIGNED"
def ErrNoCandidate : String := "NO_CANDIDATE"
def ErrNotFound : String := "NOT_FOUND"

/-- `wrapCode` of service.go: domain failures are a prefixed string. -/
def wrapCode (code msg : String) : String := code ++ ":" ++ msg

/-- `ParseErrorCode` of service.go, on the error message: scans the known
codes and strips a matching `CODE:` prefix; unclassified errors yield
an empty code. -/
def ParseErrorCode (s : String) : String × String :=
  match [ErrTeamExists, ErrPRExists, ErrPRMerged, ErrNotAssigned, ErrNoCandidate,
         ErrNotFound].find? (fun c => (c ++ ":").data.isPrefixOf s.data) with
  | some c => (c, String.mk (s.data.drop (c.data.length + 1)))
  | none => ("", s)

/- ## The pq text-array literal (repo/postgres.go pqStringArray) -/

/-- `strings.Join(a, ",")`. -/
def strJoin (sep : String) : List String → String
  | [] => ""
  | [x] => x
  | x :: y :: t => x ++ sep ++ strJoin sep (y :: t)

/-- `pqStringArray` of postgres.go: the text[] literal passed to the store. -/
def pqStringArray (a : List String) : String :=
  if a.isEmpty then "\x7b\x7d" else "\x7b" ++ strJoin "," a ++ "\x7d"

/-- Characters that an unquoted element of a Postgres array literal may not
contain; the repository never quotes elements, so we conservatively reject
literals whose elements contain any of them (or are empty). -/
def saneChar (c : Char) : Bool :=
  !(c = ',' || c = '\x7b' || c = '\x7d' || c = '"' || c = '\\' || c = ' ')

/-- A user id that round-trips through `pqStringArray`: nonempty and free of
array-literal metacharacters. -/
def saneId (s : String) : Bool :=
  !s.data.isEmpty && s.data.all saneChar

/-- Split a character list at commas. -/
def splitComma : List Char → List (List Char)
  | [] => [[]]
  | c :: cs =>
    if c = ',' then [] :: splitComma cs
    else
      match splitComma cs with
      | g :: gs => (c :: g) :: gs
      | [] => [[c]]

/-- Modelled from the store's text[] input syntax: how Postgres reads the
literal produced by `pqStringArray`.  `\x7b\x7d` is the empty array
(`array_length` of it is NULL); otherwise the body is split at commas and
each element must be a nonempty run of ordinary characters, else the
statement fails with a malformed-literal error. -/
def pgParseTextArray (s : String) : Option (List String) :=
  match s.data with
  | [] => none
  | c :: cs =>
    if c = '\x7b' && cs = ['\x7d'] then some []
    else if c = '\x7b' && cs.getLast? = some '\x7d' then
      let parts := splitComma cs.dropLast
      if parts.all (fun p => !p.isEmpty && p.all saneChar) then
        some (parts.map fun p => String.mk p)
      else none
    else none

/- ## Deterministic ordering (the SQL ORDER BY of the selection queries) -/

/-- String comparison used to model ORDER BY. -/
def strLe (a b : String) : Bool := compare a b ≠ Ordering.gt

/-- Stable insertion into a list sorted by the string key `k`. -/
def insertK (k : α → String) (x : α) : List α → List α
  | [] => [x]
  | y :: ys => if strLe (k x) (k y) then x :: y :: ys else y :: insertK k x ys

/-- Stable sort by the string key `k`; models the SQL ORDER BY with a
deterministic tie order. -/
def sortK (k : α → String) : List α → List α
  | [] => []
  | x :: xs => insertK k x (sortK k xs)

/- ## The RM monad: stateful store operations that may fail -/

def RM (α : Type) : Type := TxState → Except String α × TxState

def RM.pure (a : α) : RM α := fun s => (Except.ok a, s)

def RM.bind (x : RM α) (f : α → RM β) : RM β := fun s =>
  match x s with
  | (Except.ok a, s1) => f a s1
  | (Except.error e, s1) => (Except.error e, s1)

instance : Monad RM where
  pure := RM.pure
  bind := RM.bind

/-- A failed statement or a returned domain error. -/
def RM.fail (e : String) : RM α := fun s => (Except.error e, s)

/-- A read through `r.db`: observes the committed state. -/
def RM.dbRead (g : DB → Except String α) : RM α := fun s => (g s.base, s)

/-- A write through `r.db`: autocommits, hence visible in both views. -/
def RM.dbWrite (g : DB → DB) : RM Unit := fun s =>
  (Except.ok (), ⟨g s.base, g s.txdb⟩)

/-- A write through `tx`: applied to the transaction's view only. -/
def RM.txWrite (g : DB → DB) : RM Unit := fun s =>
  (Except.ok (), ⟨s.base, g s.txdb⟩)

/-- Run an action and expose its outcome instead of propagating the error
(the Go `_, err := ...; if err == nil` pattern). -/
def RM.attempt (x : RM α) : RM (Except String α) := fun s =>
  match x s with
  | (r, s1) => (Except.ok r, s1)

/-- The Go `revs, _ := s.repo.GetAssignedReviewers(prID)` pattern: a failed
read leaves the slice nil. -/
def RM.ignoreErr (x : RM (List α)) : RM (List α) := fun s =>
  match x s with
  | (Except.ok v, s1) => (Except.ok v, s1)
  | (Except.error _, s1) => (Except.ok [], s1)

/-- `PostgresRepo.WithTx`: run the body on a fresh transaction view; commit
it on success, roll it back (keeping autocommitted writes) on error. -/
def pgWithTx (fn : RM α) : RM α := fun s =>
  match fn ⟨s.base, s.base⟩ with
  | (Except.ok a, s1) => (Except.ok a, ⟨s1.txdb, s1.txdb⟩)
  | (Except.error e, s1) => (Except.error e, ⟨s1.base, s1.base⟩)

/- ## PostgresRepo (internal/repo/postgres.go) -/

/-- `QueryRow ... where pr_id=$1`: the unique matching row, if any. -/
def findPR (db : DB) (prID : String) : Option PullRequest :=
  db.prs.find? (fun pr => pr.id == prID)

/-- `QueryRow ... where user_id=$1`. -/
def findUser (db : DB) (uID : String) : Option User :=
  db.users.find? (fun u => u.userId == uID)

/-- `select user_id from pr_reviewers where pr_id=$1 order by user_id`. -/
def assignedReviewersOf (db : DB) (prID : String) : List String :=
  sortK (fun x => x) ((db.reviewers.filter (fun rv => rv.1 == prID)).map (fun rv => rv.2))

/-- `PostgresRepo.GetAssignedReviewers` (reads through `r.db`). -/
def PostgresRepo.GetAssignedReviewers (prID : String) : RM (List String) :=
  RM.dbRead (fun db => Except.ok (assignedReviewersOf db prID))

/-- `PostgresRepo.GetPR`: NOT_FOUND when no row; the struct is filled with
the reviewer set read by `GetAssignedReviewers`.  Reads through `r.db`. -/
def PostgresRepo.GetPR (prID : String) : RM PullRequest :=
  RM.dbRead (fun db =>
    match findPR db prID with
    | none => Except.error (wrapCode ErrNotFound "PR not found")
    | some pr => Except.ok { pr with assignedReviewers := assignedReviewersOf db prID })

/-- `PostgresRepo.GetUser` (reads through `r.db`). -/
def PostgresRepo.GetUser (uID : String) : RM User :=
  RM.dbRead (fun db =>
    match findUser db uID with
    | none => Except.error (wrapCode ErrNotFound "user not found")
    | some u => Except.ok u)

/-- `PostgresRepo.CreatePR`: `tx.Exec(insert into pull_requests ...)`.
The insert stores status 'OPEN', created_at = now(), merged_at NULL; the
primary key on pr_id makes the statement fail when the transaction's view
already holds such a row. -/
def PostgresRepo.CreatePR (pr : PullRequest) : RM Unit := fun s =>
  if s.txdb.prs.any (fun q => q.id == pr.id) then
    (Except.error "pq: duplicate key value violates unique constraint \"pull_requests_pkey\"", s)
  else
    (Except.ok (), ⟨s.base,
      { s.txdb with prs := s.txdb.prs ++
          [{ id := pr.id, name := pr.name, authorId := pr.authorId, status := PRStatus.OPEN,
             assignedReviewers := [], createdAt := some s.txdb.clock, mergedAt := none }] }⟩)

/-- `PostgresRepo.SetPRMerged`: `tx.Exec(update pull_requests set
status='MERGED', merged_at=now() where pr_id=$1)` followed by `r.GetPR` —
note that the read-back goes through `r.db`, a different connection than
the open transaction, so it sees the still-committed (pre-update) row. -/
def PostgresRepo.SetPRMerged (prID : String) : RM PullRequest := do
  RM.txWrite (fun db =>
    { db with prs := db.prs.map (fun pr =>
        if pr.id == prID then { pr with status := PRStatus.MERGED, mergedAt := some db.clock }
        else pr) })
  PostgresRepo.GetPR prID

/-- `PostgresRepo.SetUserActive`: `r.db.Exec(update users set is_active=$1
where user_id=$2)` (autocommit, no transaction), NOT_FOUND when zero rows
were affected, then `r.GetUser`. -/
def PostgresRepo.SetUserActive (uID : String) (active : Bool) : RM User := fun s =>
  if s.base.users.any (fun u => u.userId == uID) then
    let upd := fun (db : DB) =>
      { db with users := db.users.map (fun u =>
          if u.userId == uID then { u with isActive := active } else u) }
    let s1 : TxState := ⟨upd s.base, upd s.txdb⟩
    match findUser s1.base uID with
    | some u => (Except.ok u, s1)
    | none => (Except.error (wrapCode ErrNotFound "user not found"), s1)
  else
    (Except.error (wrapCode ErrNotFound "user not found"), s)

/-- The SELECT of `PostgresRepo.PickReviewersFromTeam`: active users of the
team, minus the ids in the exclusion array literal (no filter at all when
`array_length` of it is NULL, i.e. the array is empty), ordered by
`md5(prID || user_id)`, first `limit` rows. -/
def pickReviewersQuery (md5 : String → String) (db : DB) (prID team : String)
    (exclude : List String) (limit : Nat) : Except String (List String) :=
  match pgParseTextArray (pqStringArray exclude) with
  | none => Except.error "pq: malformed array literal"
  | some exs =>
    let pool := db.users.filter (fun u =>
      u.teamName == team && u.isActive && (exs.isEmpty || !(exs.contains u.userId)))
    Except.ok (((sortK (fun u => md5 (prID ++ u.userId)) pool).map (fun u => u.userId)).take limit)

/-- `PostgresRepo.PickReviewersFromTeam` (reads through `r.db`). -/
def PostgresRepo.PickReviewersFromTeam (md5 : String → String) (prID team : String)
    (exclude : List String) (limit : Nat) : RM (List String) :=
  RM.dbRead (fun db => pickReviewersQuery md5 db prID team exclude limit)

/-- `insert into pr_reviewers values ($1,$2) on conflict do nothing`. -/
def insertReviewerRow (prID uid : String) (db : DB) : DB :=
  if db.reviewers.contains (prID, uid) then db
  else { db with reviewers := db.reviewers ++ [(prID, uid)] }

/-- `delete from pr_reviewers where pr_id=$1 and user_id=$2`. -/
def deleteReviewerRow (prID uid : String) (db : DB) : DB :=
  { db with reviewers := db.reviewers.filter (fun rv => !(rv == (prID, uid))) }

/-- `PostgresRepo.AssignReviewers`: one conflict-tolerant insert per id,
all through `tx`. -/
def PostgresRepo.AssignReviewers (prID : String) (userIDs : List String) : RM Unit :=
  RM.txWrite (fun db => userIDs.foldl (fun d uid => insertReviewerRow prID uid d) db)

/-- `PostgresRepo.ReplaceReviewer`: delete the old edge, insert the new one
(on conflict do nothing), both through `tx`. -/
def PostgresRepo.ReplaceReviewer (prID oldUser newUser : String) : RM Unit :=
  RM.txWrite (fun db => insertReviewerRow prID newUser (deleteReviewerRow prID oldUser db))

/-- `PostgresRepo.DeleteReviewer` (through `tx`). -/
def PostgresRepo.DeleteReviewer (prID uid : String) : RM Unit :=
  RM.txWrite (deleteReviewerRow prID uid)

/-- `select user_id, count(*) from pr_reviewers group by user_id order by user_id`. -/
def statsByUserRows (db : DB) : List (String × Nat) :=
  (sortK (fun x => x) (db.reviewers.map (fun rv => rv.2)).eraseDups).map
    (fun uid => (uid, (db.reviewers.filter (fun rv => rv.2 == uid)).length))

/-- `select pr_id, count(*) from pr_reviewers group by pr_id order by pr_id`. -/
def statsByPRRows (db : DB) : List (String × Nat) :=
  (sortK (fun x => x) (db.reviewers.map (fun rv => rv.1)).eraseDups).map
    (fun prID => (prID, (db.reviewers.filter (fun rv => rv.1 == prID)).length))

def PostgresRepo.StatsAssignmentsByUser : RM (List (String × Nat)) :=
  RM.dbRead (fun db => Except.ok (statsByUserRows db))

def PostgresRepo.StatsAssignmentsByPR : RM (List (String × Nat)) :=
  RM.dbRead (fun db => Except.ok (statsByPRRows db))

/-- `PostgresRepo.BulkDeactivateUsers`.  Both statements run through `r.db`
(the method never receives the transaction handle), so the deactivation
autocommits even when the caller wrapped it in `WithTx`.  First query:
team members whose id is in the input array; early return when none;
second statement: set is_active=false for exactly those. -/
def PostgresRepo.BulkDeactivateUsers (team : String) (userIDs : List String) :
    RM (List String) := fun s =>
  match pgParseTextArray (pqStringArray userIDs) with
  | none => (Except.error "pq: malformed array literal", s)
  | some ids =>
    let target := (s.base.users.filter
      (fun u => u.teamName == team && ids.contains u.userId)).map (fun u => u.userId)
    if target.isEmpty then (Except.ok [], s)
    else
      match pgParseTextArray (pqStringArray target) with
      | none => (Except.error "pq: malformed array literal", s)
      | some tids =>
        let upd := fun (db : DB) =>
          { db with users := db.users.map (fun u =>
              if u.teamName == team && tids.contains u.userId then
                { u with isActive := false } else u) }
        (Except.ok target, ⟨upd s.base, upd s.txdb⟩)

/-- `PostgresRepo.ListOpenAssignmentsByUsers`: the reviewer edges of OPEN
pull requests whose user id is in the array, joined with the PR (author)
and the user (team), ordered by pr_id.  Reads through `r.db`. -/
def openRow (db : DB) (ids : List String) (rv : String × String) : Option OpenAssignment :=
  match findPR db rv.1, findUser db rv.2 with
  | some pr, some u =>
    if pr.status == PRStatus.OPEN && ids.contains rv.2 then
      some { prId := pr.id, authorId := pr.authorId,
             oldUserId := u.userId, oldUserTeam := u.teamName }
    else none
  | _, _ => none

/-- The boolean join condition `pull_requests.status = 'OPEN'` of the same
query, on a PR id. -/
def openPRB (db : DB) (p : String) : Bool :=
  match findPR db p with
  | some pr => pr.status == PRStatus.OPEN
  | none => false

def PostgresRepo.ListOpenAssignmentsByUsers (userIDs : List String) :
    RM (List OpenAssignment) :=
  RM.dbRead (fun db =>
    match pgParseTextArray (pqStringArray userIDs) with
    | none => Except.error "pq: malformed array literal"
    | some ids =>
      Except.ok (sortK (fun oa => oa.prId) (db.reviewers.filterMap (openRow db ids))))

/-- The subset of the domain.Repo interface exercised by the claims; the
service is programmed against this capability set, exactly as the Go
`Service` holds a `Repo` interface value. -/
structure Repo where
  GetPR : String → RM PullRequest
  GetUser : String → RM User
  CreatePR : PullRequest → RM Unit
  SetPRMerged : String → RM PullRequest
  SetUserActive : String → Bool → RM User
  PickReviewersFromTeam : String → String → List String → Nat → RM (List String)
  GetAssignedReviewers : String → RM (List String)
  AssignReviewers : String → List String → RM Unit
  ReplaceReviewer : String → String → String → RM Unit
  DeleteReviewer : String → String → RM Unit
  StatsAssignmentsByUser : RM (List (String × Nat))
  StatsAssignmentsByPR : RM (List (String × Nat))
  BulkDeactivateUsers : String → List String → RM (List String)
  ListOpenAssignmentsByUsers : List String → RM (List OpenAssignment)
  WithTx : {α : Type} → RM α → RM α

/-- The production adapter. -/
def pgRepo (md5 : String → String) : Repo where
  GetPR := PostgresRepo.GetPR
  GetUser := PostgresRepo.GetUser
  CreatePR := PostgresRepo.CreatePR
  SetPRMerged := PostgresRepo.SetPRMerged
  SetUserActive := PostgresRepo.SetUserActive
  PickReviewersFromTeam := PostgresRepo.PickReviewersFromTeam md5
  GetAssignedReviewers := PostgresRepo.GetAssignedReviewers
  AssignReviewers := PostgresRepo.AssignReviewers
  ReplaceReviewer := PostgresRepo.ReplaceReviewer
  DeleteReviewer := PostgresRepo.DeleteReviewer
  StatsAssignmentsByUser := PostgresRepo.StatsAssignmentsByUser
  StatsAssignmentsByPR := PostgresRepo.StatsAssignmentsByPR
  BulkDeactivateUsers := PostgresRepo.BulkDeactivateUsers
  ListOpenAssignmentsByUsers := PostgresRepo.ListOpenAssignmentsByUsers
  WithTx := fun x => pgWithTx x

/- ## Service (internal/domain/service.go) -/

/-- `Service.SetIsActive`. -/
def Service.SetIsActive (r : Repo) (userID : String) (active : Bool) : RM User :=
  r.SetUserActive userID active

/-- `Service.CreatePR`: inside one atomic unit, pre-check the id (any error
from GetPR passes the pre-check), read the author, insert the PR, pick up to
2 reviewers from the author's team excluding the author, assign them; then
read the PR and its reviewers back. -/
def Service.CreatePR (r : Repo) (prID name authorID : String) : RM PullRequest := do
  r.WithTx (do
    let pre ← RM.attempt (r.GetPR prID)
    if pre.isOk then RM.fail (wrapCode ErrPRExists "PR id already exists")
    let author ← r.GetUser authorID
    let team := author.teamName
    r.CreatePR { id := prID, name := name, authorId := authorID, status := PRStatus.OPEN,
                 assignedReviewers := [], createdAt := none, mergedAt := none }
    let cands ← r.PickReviewersFromTeam prID team [authorID] 2
    r.AssignReviewers prID cands)
  let pr ← r.GetPR prID
  let revs ← RM.ignoreErr (r.GetAssignedReviewers prID)
  pure { pr with assignedReviewers := revs }

/-- `Service.MergePR`: if the PR is already MERGED return it unchanged,
otherwise update status and timestamp; afterwards attach the reviewer set. -/
def Service.MergePR (r : Repo) (prID : String) : RM PullRequest := do
  let pr ← r.WithTx (do
    let pr ← r.GetPR prID
    if pr.status == PRStatus.MERGED then
      pure pr
    else
      r.SetPRMerged prID)
  let revs ← RM.ignoreErr (r.GetAssignedReviewers prID)
  pure { pr with assignedReviewers := revs }

/-- `Service.Reassign`: NotFound / PRMerged / NotAssigned / NoCandidate in
that order, else replace the old reviewer with the first candidate picked
from the old user's team excluding current assignees and the author. -/
def Service.Reassign (r : Repo) (prID oldUserID : String) : RM (PullRequest × String) := do
  let replacedBy ← r.WithTx (do
    let pr ← r.GetPR prID
    if pr.status == PRStatus.MERGED then
      RM.fail (wrapCode ErrPRMerged "cannot reassign on merged PR")
    let assigned ← r.GetAssignedReviewers prID
    if !(assigned.contains oldUserID) then
      RM.fail (wrapCode ErrNotAssigned "reviewer is not assigned to this PR")
    let oldUser ← r.GetUser oldUserID
    let excl := assigned ++ [pr.authorId]
    let cands ← r.PickReviewersFromTeam prID oldUser.teamName excl 1
    match cands with
    | [] => RM.fail (wrapCode ErrNoCandidate "no active replacement candidate in team")
    | c :: _ => do
        r.ReplaceReviewer prID oldUserID c
        pure c)
  let pr ← r.GetPR prID
  let revs ← RM.ignoreErr (r.GetAssignedReviewers prID)
  pure ({ pr with assignedReviewers := revs }, replacedBy)

/-- `Service.StatsAssignments`: the switch on groupBy; any value other than
"user" and "pr" takes the default branch and returns both aggregates. -/
def Service.StatsAssignments (r : Repo) (groupBy : String) : RM AssignmentStats := do
  if groupBy == "user" then
    let m ← r.StatsAssignmentsByUser
    pure { byUser := some m, byPR := none }
  else if groupBy == "pr" then
    let m ← r.StatsAssignmentsByPR
    pure { byUser := none, byPR := some m }
  else
    let mu ← r.StatsAssignmentsByUser
    let mp ← r.StatsAssignmentsByPR
    pure { byUser := some mu, byPR := some mp }

/-- The `for _, item := range open` loop body of
`Service.BulkDeactivateAndReassign`: for each open assignment re-read the
(committed) reviewer set, pick one replacement from the old user's team
excluding those reviewers and the author; replace if found, else delete. -/
def Service.processOpenAssignments (r : Repo) :
    List OpenAssignment → RM (List BulkReassignOutcome)
  | [] => pure []
  | item :: rest => do
    let assigned ← r.GetAssignedReviewers item.prId
    let excl := assigned ++ [item.authorId]
    let cands ← r.PickReviewersFromTeam item.prId item.oldUserTeam excl 1
    match cands with
    | c :: _ => do
      r.ReplaceReviewer item.prId item.oldUserId c
      let outs ← Service.processOpenAssignments r rest
      pure ({ prId := item.prId, oldUserId := item.oldUserId,
              action := "replaced", replacedBy := some c } :: outs)
    | [] => do
      r.DeleteReviewer item.prId item.oldUserId
      let outs ← Service.processOpenAssignments r rest
      pure ({ prId := item.prId, oldUserId := item.oldUserId,
              action := "removed", replacedBy := none } :: outs)

/-- `Service.BulkDeactivateAndReassign`: deactivate the matching subset,
return early when empty, else list the open assignments of the deactivated
users and process each one. -/
def Service.BulkDeactivateAndReassign (r : Repo) (team : String) (userIDs : List String) :
    RM BulkDeactivateResult := do
  let (deactivated, outcomes) ← r.WithTx (do
    let deactivated ← r.BulkDeactivateUsers team userIDs
    if deactivated.isEmpty then
      pure (deactivated, ([] : List BulkReassignOutcome))
    else
      let openItems ← r.ListOpenAssignmentsByUsers deactivated
      let outcomes ← Service.processOpenAssignments r openItems
      pure (deactivated, outcomes))
  pure { team := team, deactivated := deactivated, reassignments := outcomes }

/-- Invoke a service call on a committed database: outside any transaction
both views coincide; the call returns its result and the new committed
state. -/
def runSvc (x : RM α) (db : DB) : Except String α × DB :=
  match x ⟨db, db⟩ with
  | (r, s) => (r, s.base)

/- ## Schema invariants -/

/-- Well-formed committed state: the primary keys of users, pull_requests and
pr_reviewers, and the foreign keys of pr_reviewers (both columns) and of
pull_requests.author_id, as declared in migrations/001_init.up.sql. -/
def WF (db : DB) : Prop :=
  (db.users.map User.userId).Nodup ∧
  (db.prs.map PullRequest.id).Nodup ∧
  db.reviewers.Nodup ∧
  (∀ rv ∈ db.reviewers, ∃ u ∈ db.users, u.userId = rv.2) ∧
  (∀ rv ∈ db.reviewers, ∃ pr ∈ db.prs, pr.id = rv.1) ∧
  (∀ pr ∈ db.prs, ∃ u ∈ db.users, u.userId = pr.authorId)

instance (db : DB) : Decidable (WF db) := by
  unfold WF
  infer_instance

/-- All stored user ids survive the round trip through `pqStringArray`. -/
def SaneUserIds (db : DB) : Prop :=
  ∀ u ∈ db.users, saneId u.userId = true

instance (db : DB) : Decidable (SaneUserIds db) := by
  unfold SaneUserIds
  infer_instance

/- ## Running lemmas for the RM monad -/

theorem RM.run_bind (x : RM α) (f : α → RM β) (s : TxState) :
    (x >>= f) s =
      match x s with
      | (Except.ok a, s1) => f a s1
      | (Except.error e, s1) => (Except.error e, s1) := rfl

theorem RM.run_pure (a : α) (s : TxState) :
    (Pure.pure a : RM α) s = (Except.ok a, s) := rfl

theorem RM.run_fail (e : String) (s : TxState) :
    (RM.fail e : RM α) s = (Except.error e, s) := rfl

theorem RM.run_dbRead (g : DB → Except String α) (s : TxState) :
    RM.dbRead g s = (g s.base, s) := rfl

theorem RM.run_txWrite (g : DB → DB) (s : TxState) :
    RM.txWrite g s = (Except.ok (), ⟨s.base, g s.txdb⟩) := rfl

theorem RM.run_attempt (x : RM α) (s : TxState) :
    RM.attempt x s = (Except.ok (x s).1, (x s).2) := by
  unfold RM.attempt
  rcases x s with ⟨r, s1⟩
  rfl

theorem RM.run_ignoreErr (x : RM (List α)) (s : TxState) :
    RM.ignoreErr x s =
      (match (x s).1 with
       | Except.ok v => Except.ok v
       | Except.error _ => Except.ok [], (x s).2) := by
  unfold RM.ignoreErr
  rcases h : x s with ⟨r, s1⟩
  cases r <;> simp

/- ## Permutation lemmas for the ORDER BY model -/

theorem insertK_perm (k : α → String) (x : α) (l : List α) :
    (insertK k x l).Perm (x :: l) := by
  induction l with
  | nil => exact List.Perm.refl _
  | cons y ys ih =>
    unfold insertK
    by_cases h : strLe (k x) (k y) = true
    · simp [h]
    · simp only [h]
      simp only [Bool.false_eq_true, if_false]
      exact ((ih.cons y).trans (List.Perm.swap x y ys))

theorem sortK_perm (k : α → String) (l : List α) : (sortK k l).Perm l := by
  induction l with
  | nil => exact List.Perm.refl _
  | cons x xs ih =>
    unfold sortK
    exact (insertK_perm k x (sortK k xs)).trans (ih.cons x)

theorem sortK_mem (k : α → String) (l : List α) (a : α) :
    a ∈ sortK k l ↔ a ∈ l :=
  (sortK_perm k l).mem_iff

theorem sortK_length (k : α → String) (l : List α) :
    (sortK k l).length = l.length :=
  (sortK_perm k l).length_eq

theorem sortK_map_perm (k : α → String) (f : α → β) (l : List α) :
    ((sortK k l).map f).Perm (l.map f) :=
  (sortK_perm k l).map f


/- ## Round trip of the array literal for well-behaved ids -/

theorem String.dataAppend (a b : String) : (a ++ b).data = a.data ++ b.data := rfl

/-- Character-level counterpart of `strJoin ","`. -/
def charJoin : List (List Char) → List Char
  | [] => []
  | [x] => x
  | x :: y :: t => x ++ ',' :: charJoin (y :: t)

theorem strJoin_data : (l : List String) →
    (strJoin "," l).data = charJoin (l.map String.data)
  | [] => rfl
  | [_] => rfl
  | x :: y :: t => by
    have ih := strJoin_data (y :: t)
    show (x ++ "," ++ strJoin "," (y :: t)).data =
      x.data ++ ',' :: charJoin ((y :: t).map String.data)
    simp only [String.dataAppend, ih]
    simp [List.append_assoc]

theorem charJoin_ne_nil (x : List Char) (hx : x ≠ []) (t : List (List Char)) :
    charJoin (x :: t) ≠ [] := by
  cases t with
  | nil => exact hx
  | cons y ys =>
    show x ++ ',' :: charJoin (y :: ys) ≠ []
    simp [hx]

theorem splitComma_cons_comma (cs : List Char) :
    splitComma (',' :: cs) = [] :: splitComma cs := rfl

theorem splitComma_cons_other (c : Char) (cs : List Char) (h : ¬ c = ',') :
    splitComma (c :: cs) =
      match splitComma cs with
      | g :: gs => (c :: g) :: gs
      | [] => [[c]] := by
  rw [splitComma.eq_def]
  show (if c = ',' then [] :: splitComma cs
        else
          match splitComma cs with
          | g :: gs => (c :: g) :: gs
          | [] => [[c]]) = _
  rw [if_neg h]

theorem splitComma_no_comma (x : List Char) (h : ∀ c ∈ x, ¬ c = ',') :
    splitComma x = [x] := by
  induction x with
  | nil => rfl
  | cons c cs ih =>
    rw [splitComma_cons_other c cs (h c (List.mem_cons_self c cs))]
    rw [ih (fun d hd => h d (List.mem_cons_of_mem c hd))]

theorem splitComma_append (x rest : List Char) (h : ∀ c ∈ x, ¬ c = ',') :
    splitComma (x ++ ',' :: rest) = x :: splitComma rest := by
  induction x with
  | nil =>
    show splitComma (',' :: rest) = [] :: splitComma rest
    exact splitComma_cons_comma rest
  | cons c cs ih =>
    show splitComma (c :: (cs ++ ',' :: rest)) = (c :: cs) :: splitComma rest
    rw [splitComma_cons_other c _ (h c (List.mem_cons_self c cs))]
    rw [ih (fun d hd => h d (List.mem_cons_of_mem c hd))]

theorem splitComma_charJoin : (x : List Char) → (t : List (List Char)) →
    (h : ∀ p ∈ x :: t, p ≠ [] ∧ ∀ c ∈ p, ¬ c = ',') →
    splitComma (charJoin (x :: t)) = x :: t
  | x, [], h => splitComma_no_comma x (h x (List.mem_cons_self x []) ).2
  | x, y :: t, h => by
    show splitComma (x ++ ',' :: charJoin (y :: t)) = x :: y :: t
    rw [splitComma_append x _ ((h x (List.mem_cons_self x _)).2)]
    rw [splitComma_charJoin y t (fun p hp => h p (List.mem_cons_of_mem x hp))]

theorem saneId_parts (e : String) (h : saneId e = true) :
    e.data ≠ [] ∧ ∀ c ∈ e.data, ¬ c = ',' := by
  unfold saneId at h
  rw [Bool.and_eq_true] at h
  constructor
  · intro hnil
    rw [hnil] at h
    simp at h
  · intro c hc hcomma
    have := List.all_eq_true.mp h.2 c hc
    rw [hcomma] at this
    simp [saneChar] at this


theorem pgParse_pq_of_sane (l : List String) (h : ∀ e ∈ l, saneId e = true) :
    pgParseTextArray (pqStringArray l) = some l := by
  cases l with
  | nil => rfl
  | cons x t =>
    have hsane : ∀ p ∈ x.data :: t.map String.data, p ≠ [] ∧ ∀ c ∈ p, ¬ c = ',' := by
      intro p hp
      rcases List.mem_cons.mp hp with hp | hp
      · exact hp ▸ saneId_parts x (h x (List.mem_cons_self x t))
      · rcases List.mem_map.mp hp with ⟨e, he, rfl⟩
        exact saneId_parts e (h e (List.mem_cons_of_mem x he))
    have hdata : (pqStringArray (x :: t)).data =
        '\x7b' :: (charJoin (x.data :: t.map String.data) ++ ['\x7d']) := by
      show ("\x7b" ++ strJoin "," (x :: t) ++ "\x7d").data = _
      simp only [String.dataAppend, strJoin_data, List.map_cons]
      rfl
    have hne : charJoin (x.data :: t.map String.data) ≠ [] :=
      charJoin_ne_nil x.data (hsane x.data (List.mem_cons_self _ _)).1 _
    unfold pgParseTextArray
    rw [hdata]
    have hsplit := splitComma_charJoin x.data (t.map String.data) hsane
    have hall : (x.data :: t.map String.data).all
        (fun p => !p.isEmpty && p.all saneChar) = true := by
      rw [List.all_eq_true]
      intro p hp
      rcases List.mem_cons.mp hp with hp | hp
      · have := h x (List.mem_cons_self x t)
        unfold saneId at this
        rw [hp]
        simpa using this
      · rcases List.mem_map.mp hp with ⟨e, he, rfl⟩
        have := h e (List.mem_cons_of_mem x he)
        unfold saneId at this
        simpa using this
    simp only [List.append_left_eq_self, List.getLast?_concat, List.dropLast_concat,
      hsplit, hall, hne, decide_True, decide_False, Bool.true_and, Bool.and_true,
      Bool.and_false, if_true, if_false, decide_eq_true_eq]
    simp only [Bool.false_eq_true, if_false, Option.some.injEq, List.map_cons, List.map_map]
    have hmk : ((fun p => ({ data := p } : String)) ∘ String.data) = id := by
      funext e
      rfl
    rw [hmk, List.map_id]

theorem pgParse_sane (s : String) (l : List String)
    (h : pgParseTextArray s = some l) : ∀ e ∈ l, saneId e = true := by
  unfold pgParseTextArray at h
  rcases hs : s.data with _ | ⟨c, cs⟩
  · rw [hs] at h
    exact absurd h (by simp)
  · rw [hs] at h
    replace h : (if (decide (c = '\x7b') && decide (cs = ['\x7d'])) = true then some ([] : List String)
        else if (decide (c = '\x7b') && decide (cs.getLast? = some '\x7d')) = true then
          (if ((splitComma cs.dropLast).all fun p => !p.isEmpty && p.all saneChar) = true then
             some ((splitComma cs.dropLast).map (fun p => String.mk p))
           else none)
        else none) = some l := h
    by_cases h1 : (decide (c = '\x7b') && decide (cs = ['\x7d'])) = true
    · rw [if_pos h1] at h
      intro e he
      rw [(Option.some.injEq _ _).mp h.symm] at he
      exact absurd he (List.not_mem_nil e)
    · rw [if_neg h1] at h
      by_cases h2 : (decide (c = '\x7b') && decide (cs.getLast? = some '\x7d')) = true
      · rw [if_pos h2] at h
        by_cases h3 : (splitComma cs.dropLast).all
            (fun p => !p.isEmpty && p.all saneChar) = true
        · rw [if_pos h3] at h
          intro e he
          have hle : (splitComma cs.dropLast).map (fun p => String.mk p) = l :=
            (Option.some.injEq _ _).mp h
          have : e ∈ (splitComma cs.dropLast).map (fun p => String.mk p) := by
            rw [hle]
            exact he
          rcases List.mem_map.mp this with ⟨p, hp, rfl⟩
          have := List.all_eq_true.mp h3 p hp
          unfold saneId
          simpa using this
        · rw [if_neg h3] at h
          exact absurd h (by simp)
      · rw [if_neg h2] at h
        exact absurd h (by simp)

/- ## Concrete fixtures -/

/-- A concrete instance for the uninterpreted ranking function, used to
evaluate the model on closed inputs (injective on the concatenated keys,
like the production hash). -/
def md5id : String → String := fun s => s

def c1CexDb : DB :=
  ⟨["t"], [⟨"", "solo", "t", true⟩], [], [], 0⟩

def c3CexDb : DB :=
  ⟨["t"],
   [⟨"a", "a", "t", true⟩, ⟨"b", "b", "t", true⟩, ⟨"", "e", "t", true⟩, ⟨"c", "c", "t", true⟩],
   [⟨"p1", "f", "a", PRStatus.OPEN, [], some 0, none⟩],
   [("p1", "b"), ("p1", "")], 0⟩

def c4CexDb : DB :=
  ⟨["t"],
   [⟨"a", "a", "t", true⟩, ⟨"b", "b", "t", true⟩],
   [⟨"p1", "f", "a", PRStatus.MERGED, [], some 0, some 1⟩],
   [("p1", "b")], 2⟩

def c6CexDb : DB :=
  ⟨["t"],
   [⟨"a", "a", "t", true⟩, ⟨"u2", "u2", "t", true⟩, ⟨"u3", "u3", "t", true⟩,
    ⟨"u4", "u4", "t", true⟩, ⟨"u5", "u5", "t", true⟩],
   [⟨"p1", "f", "a", PRStatus.OPEN, [], some 0, none⟩],
   [("p1", "u2"), ("p1", "u3")], 0⟩

def c6CexDb2 : DB :=
  ⟨["t"],
   [⟨"a", "a", "t", true⟩, ⟨"m", "m", "t", true⟩, ⟨"x,y", "x", "t", true⟩],
   [⟨"p1", "f", "a", PRStatus.OPEN, [], some 0, none⟩],
   [("p1", "m"), ("p1", "x,y")], 0⟩

def c5Db : DB :=
  ⟨["t"],
   [⟨"a", "a", "t", true⟩, ⟨"u2", "u2", "t", true⟩, ⟨"u3", "u3", "t", true⟩],
   [⟨"p1", "f", "a", PRStatus.OPEN, [], some 0, none⟩],
   [("p1", "u2")], 0⟩

/-- The production adapter except that the reviewer-replacement statement
fails: storage failure is a behaviour every `Repo` method may exhibit (each
returns an error in the Go interface), and the Go service is polymorphic
over `Repo`. -/
def c5FailRepo : Repo :=
  { pgRepo md5id with ReplaceReviewer := fun _ _ _ => RM.fail "pq: connection reset" }

def c7Db : DB :=
  ⟨["t"], [⟨"a", "a", "t", true⟩, ⟨"b", "b", "t", true⟩], [], [], 0⟩

/-- The production adapter under the race of spec §5: a concurrent
`CreatePR("pr-1", ...)` commits after this call's existence pre-check read
(which therefore reported no row) and before its insert, so the insert
statement fails with the store's uniqueness violation.  This is exactly the
behaviour of the Postgres adapter under read-committed isolation, expressed
as a `Repo` value. -/
def pqDupKeyMsg : String :=
  "pq: duplicate key value violates unique constraint \"pull_requests_pkey\""

def c7RaceRepo : Repo :=
  { pgRepo md5id with CreatePR := fun _ => RM.fail pqDupKeyMsg }

/- ## Refutations and code bugs on closed inputs -/

/-- C1 (counterexample): with the empty-string author id (a storable user
id), `pqStringArray [""]` is the literal `\x7b\x7d`, the empty array, so the
exclusion filter of the selection query is disabled; CreatePR succeeds and
assigns the author to their own PR, and the reviewer count is 1 although
min(2, number of active teammates excluding the author) = 0. -/
theorem createPR_empty_author_id_cex :
    ((runSvc (Service.CreatePR (pgRepo md5id) "p1" "n" "") c1CexDb).1.map
        PullRequest.assignedReviewers) = Except.ok [""] ∧
    (c1CexDb.users.filter
        (fun u => u.teamName == "t" && u.isActive && !(u.userId == ""))).length = 0 :=
  ⟨rfl, rfl⟩

/-- C3 (counterexample): on a PR whose reviewer set contains the
empty-string user id, the exclusion literal built by `pqStringArray` for the
replacement query is malformed, so Reassign fails with an unclassified store
error even though the PR exists and is OPEN, the old reviewer "b" is
assigned, and an active candidate "c" outside assignees and author exists —
the claim requires a successful replacement here. -/
theorem reassign_unclassified_error_cex :
    (runSvc (Service.Reassign (pgRepo md5id) "p1" "b") c3CexDb).1 =
      Except.error "pq: malformed array literal" ∧
    (ParseErrorCode "pq: malformed array literal").1 = "" ∧
    (findPR c3CexDb "p1").map PullRequest.status = some PRStatus.OPEN ∧
    ("p1", "b") ∈ c3CexDb.reviewers ∧
    (c3CexDb.users.filter (fun u => u.teamName == "t" && u.isActive &&
        !(u.userId == "b") && !(u.userId == "") && !(u.userId == "a"))).map User.userId =
      ["c"] :=
  ⟨rfl, rfl, rfl, by decide, rfl⟩

/-- C4 (counterexample): BulkDeactivateAndReassign succeeds, deactivates
"b", yet "b" remains in the assignment set of the MERGED pull request p1 —
so a deactivated id does remain assigned to a pull request (the code only
reconciles OPEN ones). -/
theorem bulkDeactivate_merged_pr_retains_cex :
    (runSvc (Service.BulkDeactivateAndReassign (pgRepo md5id) "t" ["b"]) c4CexDb).1 =
      Except.ok ⟨"t", ["b"], []⟩ ∧
    (runSvc (Service.BulkDeactivateAndReassign (pgRepo md5id) "t" ["b"]) c4CexDb).2.reviewers =
      [("p1", "b")] ∧
    ((runSvc (Service.BulkDeactivateAndReassign (pgRepo md5id) "t" ["b"]) c4CexDb).2.users.filter
        (fun u => u.userId == "b")).map User.isActive = [false] ∧
    (findPR c4CexDb "p1").map PullRequest.status = some PRStatus.MERGED :=
  ⟨rfl, rfl, rfl, rfl⟩

/-- C5 (code bug): BulkDeactivateAndReassign is not atomic.  The Go
`BulkDeactivateUsers` updates users through `r.db` (it never receives the
transaction handle), so the deactivation autocommits; when the subsequent
reviewer replacement fails, the call returns an error, the reviewer table is
rolled back, but u2's activity flag stays flipped. -/
theorem bulkDeactivate_not_atomic :
    (runSvc (Service.BulkDeactivateAndReassign c5FailRepo "t" ["u2"]) c5Db).1 =
      Except.error "pq: connection reset" ∧
    ((runSvc (Service.BulkDeactivateAndReassign c5FailRepo "t" ["u2"]) c5Db).2.users.filter
        (fun u => u.userId == "u2")).map User.isActive = [false] ∧
    (c5Db.users.filter (fun u => u.userId == "u2")).map User.isActive = [true] ∧
    (runSvc (Service.BulkDeactivateAndReassign c5FailRepo "t" ["u2"]) c5Db).2.reviewers =
      c5Db.reviewers :=
  ⟨rfl, rfl, rfl, rfl⟩

/-- C6 (counterexample).  First scenario: two assignments of the same OPEN
PR are processed in one bulk call; the second candidate query still reads
the committed reviewer set (the loop's reads bypass the open transaction),
so the very same replacement u4 is selected and reported twice for p1, and
the PR ends with a single reviewer although u5 was available — the
replacement of the second outcome was already (pending-)assigned at the
moment of the write.  Second scenario: a stored id containing a comma makes
the exclusion literal exclude the fragments "x" and "y" instead of the
assigned reviewer "x,y", which is then selected as replacement although it
is currently assigned to that very PR. -/
theorem replacement_duplicate_and_assigned_cex :
    (runSvc (Service.BulkDeactivateAndReassign (pgRepo md5id) "t" ["u2", "u3"]) c6CexDb).1 =
      Except.ok ⟨"t", ["u2", "u3"],
        [⟨"p1", "u2", "replaced", some "u4"⟩, ⟨"p1", "u3", "replaced", some "u4"⟩]⟩ ∧
    (runSvc (Service.BulkDeactivateAndReassign (pgRepo md5id) "t" ["u2", "u3"]) c6CexDb).2.reviewers =
      [("p1", "u4")] ∧
    (runSvc (Service.BulkDeactivateAndReassign (pgRepo md5id) "t" ["m"]) c6CexDb2).1 =
      Except.ok ⟨"t", ["m"], [⟨"p1", "m", "replaced", some "x,y"⟩]⟩ ∧
    ("p1", "x,y") ∈ c6CexDb2.reviewers :=
  ⟨rfl, rfl, rfl, by decide⟩

/-- C7 (code bug): when the store surfaces a uniqueness violation during
CreatePR's atomic unit (concurrent duplicate PR id: the pre-check read saw
no row, the insert then hit the primary key), the service returns the raw
driver error; `ParseErrorCode` classifies it as the empty code, not
PR_EXISTS, so the failure is unclassified (HTTP 500), contradicting the
claim. -/
theorem createPR_unique_violation_unclassified :
    (runSvc (Service.CreatePR c7RaceRepo "pr-1" "n" "a") c7Db).1 =
      Except.error pqDupKeyMsg ∧
    (ParseErrorCode pqDupKeyMsg).1 = "" ∧
    ErrPRExists ≠ "" :=
  ⟨rfl, by decide, by decide⟩

/- ## Projection lemmas for the production adapter -/

theorem pgRepo_GetPR (md5 : String → String) :
    (pgRepo md5).GetPR = PostgresRepo.GetPR := rfl

theorem pgRepo_GetUser (md5 : String → String) :
    (pgRepo md5).GetUser = PostgresRepo.GetUser := rfl

theorem pgRepo_CreatePR (md5 : String → String) :
    (pgRepo md5).CreatePR = PostgresRepo.CreatePR := rfl

theorem pgRepo_SetPRMerged (md5 : String → String) :
    (pgRepo md5).SetPRMerged = PostgresRepo.SetPRMerged := rfl

theorem pgRepo_SetUserActive (md5 : String → String) :
    (pgRepo md5).SetUserActive = PostgresRepo.SetUserActive := rfl

theorem pgRepo_PickReviewersFromTeam (md5 : String → String) :
    (pgRepo md5).PickReviewersFromTeam = PostgresRepo.PickReviewersFromTeam md5 := rfl

theorem pgRepo_GetAssignedReviewers (md5 : String → String) :
    (pgRepo md5).GetAssignedReviewers = PostgresRepo.GetAssignedReviewers := rfl

theorem pgRepo_AssignReviewers (md5 : String → String) :
    (pgRepo md5).AssignReviewers = PostgresRepo.AssignReviewers := rfl

theorem pgRepo_ReplaceReviewer (md5 : String → String) :
    (pgRepo md5).ReplaceReviewer = PostgresRepo.ReplaceReviewer := rfl

theorem pgRepo_DeleteReviewer (md5 : String → String) :
    (pgRepo md5).DeleteReviewer = PostgresRepo.DeleteReviewer := rfl

theorem pgRepo_StatsAssignmentsByUser (md5 : String → String) :
    (pgRepo md5).StatsAssignmentsByUser = PostgresRepo.StatsAssignmentsByUser := rfl

theorem pgRepo_StatsAssignmentsByPR (md5 : String → String) :
    (pgRepo md5).StatsAssignmentsByPR = PostgresRepo.StatsAssignmentsByPR := rfl

theorem pgRepo_BulkDeactivateUsers (md5 : String → String) :
    (pgRepo md5).BulkDeactivateUsers = PostgresRepo.BulkDeactivateUsers := rfl

theorem pgRepo_ListOpenAssignmentsByUsers (md5 : String → String) :
    (pgRepo md5).ListOpenAssignmentsByUsers = PostgresRepo.ListOpenAssignmentsByUsers := rfl

theorem pgRepo_WithTx (md5 : String → String) (x : RM α) :
    (pgRepo md5).WithTx x = pgWithTx x := rfl

theorem runSvc_def (x : RM α) (db : DB) :
    runSvc x db = ((x ⟨db, db⟩).1, (x ⟨db, db⟩).2.base) := by
  unfold runSvc
  rcases x ⟨db, db⟩ with ⟨r, s⟩
  rfl

/-- C10: StatsAssignments succeeds for every groupBy string, and every value
other than "user" and "pr" takes the default branch, returning both the
by-user and the by-PR aggregates, exactly as "all" does. -/
theorem statsAssignments_total_and_default (md5 : String → String) (groupBy : String) (db : DB) :
    (∃ st, runSvc (Service.StatsAssignments (pgRepo md5) groupBy) db = (Except.ok st, db)) ∧
    (groupBy ≠ "user" → groupBy ≠ "pr" →
      runSvc (Service.StatsAssignments (pgRepo md5) groupBy) db =
        (Except.ok ⟨some (statsByUserRows db), some (statsByPRRows db)⟩, db) ∧
      runSvc (Service.StatsAssignments (pgRepo md5) groupBy) db =
        runSvc (Service.StatsAssignments (pgRepo md5) "all") db) := by
  have hrun : ∀ g : String, runSvc (Service.StatsAssignments (pgRepo md5) g) db =
      (if g == "user" then (Except.ok ⟨some (statsByUserRows db), none⟩, db)
       else if g == "pr" then (Except.ok ⟨none, some (statsByPRRows db)⟩, db)
       else (Except.ok ⟨some (statsByUserRows db), some (statsByPRRows db)⟩, db)) := by
    intro g
    unfold Service.StatsAssignments
    rw [runSvc_def]
    by_cases hu : (g == "user") = true
    · simp [hu, pgRepo, PostgresRepo.StatsAssignmentsByUser, RM.run_bind, RM.run_dbRead,
        RM.run_pure, RM.run_fail]
    · by_cases hp : (g == "pr") = true
      · simp [hu, hp, pgRepo, PostgresRepo.StatsAssignmentsByUser, PostgresRepo.StatsAssignmentsByPR,
          RM.run_bind, RM.run_dbRead, RM.run_pure]
      · simp [hu, hp, pgRepo, PostgresRepo.StatsAssignmentsByUser, PostgresRepo.StatsAssignmentsByPR,
          RM.run_bind, RM.run_dbRead, RM.run_pure]
  constructor
  · rw [hrun]
    by_cases hu : (groupBy == "user") = true
    · rw [if_pos hu]
      exact ⟨_, rfl⟩
    · rw [if_neg hu]
      by_cases hp : (groupBy == "pr") = true
      · rw [if_pos hp]
        exact ⟨_, rfl⟩
      · rw [if_neg hp]
        exact ⟨_, rfl⟩
  · intro hu hp
    have hu2 : (groupBy == "user") = false := by simpa using hu
    have hp2 : (groupBy == "pr") = false := by simpa using hp
    rw [hrun, hrun]
    simp [hu2, hp2]

/-- C9: SetActive never touches reviewer assignments: whatever the outcome,
the pr_reviewers, pull_requests and teams tables are unchanged; on success
only the addressed user's activity flag is modified; on failure the state is
untouched and the error is the NOT_FOUND domain failure — no reconciliation
of open-PR assignments is triggered. -/
theorem setIsActive_frame (md5 : String → String) (uid : String) (b : Bool) (db : DB) :
    (runSvc (Service.SetIsActive (pgRepo md5) uid b) db).2.reviewers = db.reviewers ∧
    (runSvc (Service.SetIsActive (pgRepo md5) uid b) db).2.prs = db.prs ∧
    (runSvc (Service.SetIsActive (pgRepo md5) uid b) db).2.teams = db.teams ∧
    (∀ u, (runSvc (Service.SetIsActive (pgRepo md5) uid b) db).1 = Except.ok u →
      (runSvc (Service.SetIsActive (pgRepo md5) uid b) db).2.users =
        db.users.map (fun v => if v.userId = uid then { v with isActive := b } else v)) ∧
    (∀ e, (runSvc (Service.SetIsActive (pgRepo md5) uid b) db).1 = Except.error e →
      e = wrapCode ErrNotFound "user not found" ∧
      (runSvc (Service.SetIsActive (pgRepo md5) uid b) db).2 = db) := by
  have hmap : (db.users.map (fun u => if u.userId == uid then { u with isActive := b } else u)) =
      (db.users.map (fun v : User => if v.userId = uid then { v with isActive := b } else v)) := by
    apply List.map_congr_left
    intro v _
    by_cases h : v.userId = uid
    · simp [h]
    · simp [h]
  unfold Service.SetIsActive
  rw [pgRepo_SetUserActive]
  unfold PostgresRepo.SetUserActive
  rw [runSvc_def]
  simp only []
  by_cases hany : (db.users.any (fun u => u.userId == uid)) = true
  · simp only [hany, if_true]
    rcases hf : findUser ⟨db.teams, db.users.map
        (fun u => if u.userId == uid then { u with isActive := b } else u),
        db.prs, db.reviewers, db.clock⟩ uid with _ | u
    · exfalso
      rcases List.any_eq_true.mp hany with ⟨u, hu, hpu⟩
      unfold findUser at hf
      have hnone := List.find?_eq_none.mp hf
      apply hnone (if (u.userId == uid) = true then { u with isActive := b } else u)
        (List.mem_map_of_mem _ hu)
      rw [if_pos hpu]
      exact hpu
    · simp only [hf]
      exact ⟨trivial, trivial, trivial, fun _ _ => hmap, fun e he => absurd he (by simp)⟩
  · simp only [hany, Bool.false_eq_true, if_false]
    exact ⟨trivial, trivial, trivial, fun u hu => absurd hu (by simp),
      fun e he => ⟨by simpa using he.symm, trivial⟩⟩

/-- C8: the reviewer-selection query is deterministic: it is a pure function
of the key (PR id), team, exclusion list, limit and the ranking function,
and among the database it depends only on the team's active-user rows — two
calls with identical arguments against states whose active team members
coincide return the same candidates in the same order. -/
theorem pickReviewers_deterministic (md5 : String → String) (prID team : String)
    (exclude : List String) (limit : Nat) (db1 db2 : DB)
    (h : db1.users.filter (fun u => u.teamName == team && u.isActive) =
         db2.users.filter (fun u => u.teamName == team && u.isActive)) :
    pickReviewersQuery md5 db1 prID team exclude limit =
    pickReviewersQuery md5 db2 prID team exclude limit := by
  unfold pickReviewersQuery
  cases pgParseTextArray (pqStringArray exclude) with
  | none => rfl
  | some exs =>
    have hpool : db1.users.filter (fun u =>
        u.teamName == team && u.isActive && (exs.isEmpty || !(exs.contains u.userId))) =
      db2.users.filter (fun u =>
        u.teamName == team && u.isActive && (exs.isEmpty || !(exs.contains u.userId))) := by
      have e1 : ∀ db : DB, db.users.filter (fun u =>
          u.teamName == team && u.isActive && (exs.isEmpty || !(exs.contains u.userId))) =
        (db.users.filter (fun u => u.teamName == team && u.isActive)).filter
          (fun u => exs.isEmpty || !(exs.contains u.userId)) := by
        intro db
        rw [List.filter_filter]
        apply List.filter_congr
        intro u _
        rw [Bool.and_comm]
      rw [e1, e1, h]
    simp only [hpool]

theorem find?_map_pred (l : List PullRequest) (f : PullRequest → PullRequest)
    (hf : ∀ x, (f x).id = x.id) (p : String) :
    (l.map f).find? (fun q => q.id == p) = (l.find? (fun q => q.id == p)).map f := by
  rw [List.find?_map]
  have hc : ((fun q : PullRequest => q.id == p) ∘ f) = (fun q : PullRequest => q.id == p) := by
    funext x
    show ((f x).id == p) = (x.id == p)
    rw [hf]
  rw [hc]

/-- C2: MergePR is idempotent.  On a PR already MERGED it returns the stored
row (same status, same merged timestamp, reviewer set attached) and the
database is unchanged — no mutation is performed.  On an OPEN PR the call
succeeds and the stored row afterwards has status MERGED and merge
timestamp now(). -/
theorem mergePR_idempotent (md5 : String → String) (db : DB) (p : String) (pr : PullRequest)
    (hpr : findPR db p = some pr) :
    (pr.status = PRStatus.MERGED →
      runSvc (Service.MergePR (pgRepo md5) p) db =
        (Except.ok { pr with assignedReviewers := assignedReviewersOf db p }, db)) ∧
    (pr.status = PRStatus.OPEN →
      (∃ out, (runSvc (Service.MergePR (pgRepo md5) p) db).1 = Except.ok out) ∧
      findPR (runSvc (Service.MergePR (pgRepo md5) p) db).2 p =
        some { pr with status := PRStatus.MERGED, mergedAt := some db.clock }) := by
  have hpr2 : db.prs.find? (fun q => q.id == p) = some pr := hpr
  have hpred0 := List.find?_some hpr2
  have hpred : (pr.id == p) = true := hpred0
  constructor
  · intro hst
    unfold Service.MergePR
    rw [runSvc_def]
    simp only [RM.run_bind, pgRepo_WithTx, pgRepo_GetPR, pgRepo_GetAssignedReviewers]
    unfold pgWithTx PostgresRepo.GetPR
    simp only [RM.run_bind, RM.run_dbRead, hpr, hst]
    rfl
  · intro hst
    unfold Service.MergePR
    simp only [runSvc_def, RM.run_bind, pgRepo_WithTx, pgRepo_GetPR,
      pgRepo_GetAssignedReviewers, pgRepo_SetPRMerged]
    unfold pgWithTx PostgresRepo.SetPRMerged PostgresRepo.GetPR
    simp only [RM.run_bind, RM.run_dbRead, RM.run_txWrite, hpr, hst]
    simp only [show (PRStatus.OPEN == PRStatus.MERGED) = false from rfl, Bool.false_eq_true,
      if_false, RM.run_bind, RM.run_txWrite, RM.run_dbRead, hpr, RM.run_ignoreErr,
      RM.run_pure, PostgresRepo.GetAssignedReviewers]
    refine ⟨⟨_, rfl⟩, ?_⟩
    unfold findPR
    rw [find?_map_pred _ _ (fun x => by by_cases hx : (x.id == p) = true <;> simp [hx]) p]
    rw [hpr2]
    simp [hpred]
    intro hne
    exact absurd (beq_iff_eq.mp hpred) hne

theorem insertReviewerRow_frame (prID uid : String) (db : DB) :
    (insertReviewerRow prID uid db).users = db.users ∧
    (insertReviewerRow prID uid db).prs = db.prs ∧
    (insertReviewerRow prID uid db).teams = db.teams ∧
    (insertReviewerRow prID uid db).clock = db.clock := by
  unfold insertReviewerRow
  by_cases h : (prID, uid) ∈ db.reviewers
  · simp [h]
  · simp [h]

theorem foldl_insertReviewerRow (prID : String) (ids : List String) (db0 : DB)
    (hno : ∀ c ∈ ids, ¬ (prID, c) ∈ db0.reviewers) (hnd : ids.Nodup) :
    (ids.foldl (fun d uid => insertReviewerRow prID uid d) db0).reviewers =
      db0.reviewers ++ ids.map (fun c => (prID, c)) ∧
    (ids.foldl (fun d uid => insertReviewerRow prID uid d) db0).users = db0.users ∧
    (ids.foldl (fun d uid => insertReviewerRow prID uid d) db0).prs = db0.prs ∧
    (ids.foldl (fun d uid => insertReviewerRow prID uid d) db0).teams = db0.teams ∧
    (ids.foldl (fun d uid => insertReviewerRow prID uid d) db0).clock = db0.clock := by
  induction ids generalizing db0 with
  | nil => simp
  | cons c rest ih =>
    have hc : ¬ (prID, c) ∈ db0.reviewers := hno c (List.mem_cons_self c rest)
    have hstep : (insertReviewerRow prID c db0) =
        { db0 with reviewers := db0.reviewers ++ [(prID, c)] } := by
      unfold insertReviewerRow
      simp [hc]
    simp only [List.foldl_cons]
    rw [hstep]
    have ih2 := ih { db0 with reviewers := db0.reviewers ++ [(prID, c)] }
      (by
        intro x hx
        simp only [List.mem_append]
        rintro (hx1 | hx2)
        · exact hno x (List.mem_cons_of_mem c hx) hx1
        · have : x = c := by
            simpa using hx2
          rw [this] at hx
          exact (List.nodup_cons.mp hnd).1 hx)
      (List.nodup_cons.mp hnd).2
    refine ⟨?_, ?_, ?_, ?_, ?_⟩
    · rw [ih2.1]
      simp
    · rw [ih2.2.1]
    · rw [ih2.2.2.1]
    · rw [ih2.2.2.2.1]
    · rw [ih2.2.2.2.2]

/-- C1 (amended): for every successful CreatePR on a well-formed store
whose user ids are nonempty and free of array-literal metacharacters, the
returned PR's reviewer set has size min(2, number of active users of the
author's team excluding the author), does not contain the author, and has
no duplicate members. -/
theorem createPR_reviewer_set (md5 : String → String) (db : DB)
    (prID name authorID : String) (pr : PullRequest)
    (hwf : WF db) (hsane : SaneUserIds db)
    (hok : (runSvc (Service.CreatePR (pgRepo md5) prID name authorID) db).1 = Except.ok pr) :
    ∃ au, findUser db authorID = some au ∧
      pr.assignedReviewers.length =
        min 2 ((db.users.filter (fun u =>
          u.teamName == au.teamName && u.isActive && !(u.userId == authorID))).length) ∧
      authorID ∉ pr.assignedReviewers ∧
      pr.assignedReviewers.Nodup := by
  unfold Service.CreatePR at hok
  simp only [runSvc_def, RM.run_bind, pgRepo_WithTx, pgRepo_GetPR, pgRepo_GetUser,
    pgRepo_CreatePR, pgRepo_PickReviewersFromTeam, pgRepo_AssignReviewers,
    pgRepo_GetAssignedReviewers] at hok
  unfold pgWithTx PostgresRepo.GetPR PostgresRepo.GetUser PostgresRepo.CreatePR
    PostgresRepo.PickReviewersFromTeam PostgresRepo.AssignReviewers
    PostgresRepo.GetAssignedReviewers at hok
  simp only [RM.run_bind, RM.run_attempt, RM.run_dbRead, RM.run_txWrite, RM.run_pure,
    RM.run_fail, RM.run_ignoreErr] at hok
  rcases hfind : findPR db prID with _ | prx
  case some =>
    rw [hfind] at hok
    simp [Except.isOk, Except.toBool, RM.run_bind, RM.run_fail] at hok
  case none =>
  rw [hfind] at hok
  have hanyprs : (db.prs.any fun q => q.id == prID) = false := by
    have h1 := List.find?_eq_none.mp hfind
    rw [List.any_eq_false]
    intro x hx
    exact h1 x hx
  simp only [Except.isOk, Except.toBool, Bool.false_eq_true, if_false, RM.run_bind, RM.run_pure,
    RM.run_dbRead, RM.run_txWrite] at hok
  rcases hau : findUser db authorID with _ | au
  case none =>
    rw [hau] at hok
    simp [Except.isOk, Except.toBool, RM.run_bind, RM.run_fail, RM.run_dbRead, RM.run_pure] at hok
  case some =>
  rw [hau] at hok
  simp only [RM.run_bind, RM.run_pure, RM.run_dbRead, RM.run_txWrite, hanyprs,
    Bool.false_eq_true, if_false] at hok
  -- facts about the author
  have hmem_au : au ∈ db.users := List.mem_of_find?_eq_some hau
  have haid0 := List.find?_some hau
  have haid : au.userId = authorID := by
    have h : (au.userId == authorID) = true := haid0
    exact beq_iff_eq.mp h
  have hsaneauthor : saneId authorID = true := by
    rw [← haid]
    exact hsane au hmem_au
  have hparse : pgParseTextArray (pqStringArray [authorID]) = some [authorID] := by
    apply pgParse_pq_of_sane
    intro e he
    have : e = authorID := by simpa using he
    rw [this]
    exact hsaneauthor
  -- the candidate pool and the selected candidates
  have hpick : pickReviewersQuery md5 db prID au.teamName [authorID] 2 =
      Except.ok (((sortK (fun u => md5 (prID ++ u.userId))
        (db.users.filter (fun u =>
          u.teamName == au.teamName && u.isActive && !(u.userId == authorID)))).map
            (fun u => u.userId)).take 2) := by
    unfold pickReviewersQuery
    rw [hparse]
    have hfiltereq : (db.users.filter (fun u =>
        u.teamName == au.teamName && u.isActive &&
          (([authorID] : List String).isEmpty || !(([authorID] : List String).contains u.userId)))) =
      (db.users.filter (fun u =>
        u.teamName == au.teamName && u.isActive && !(u.userId == authorID))) := by
      apply List.filter_congr
      intro u _
      have hcontains : (([authorID] : List String).contains u.userId) = (u.userId == authorID) := by
        by_cases h2 : u.userId = authorID
        · simp [List.contains, h2]
        · simp [List.contains, h2]
      rw [hcontains]
      rfl
    simp only []
    rw [hfiltereq]
  rw [hpick] at hok
  set pool := db.users.filter (fun u =>
      u.teamName == au.teamName && u.isActive && !(u.userId == authorID)) with hpoolDef
  set cands := ((sortK (fun u => md5 (prID ++ u.userId)) pool).map (fun u => u.userId)).take 2
    with hcandsDef
  simp only [] at hok
  -- no reviewer row of prID exists before the call
  have hnorow : ∀ c : String, (prID, c) ∉ db.reviewers := by
    intro c hmem
    rcases hwf.2.2.2.2.1 (prID, c) hmem with ⟨pr2, hpr2, hpr2id⟩
    have := List.find?_eq_none.mp hfind pr2 hpr2
    apply this
    show (pr2.id == prID) = true
    rw [hpr2id]
    simp
  -- candidate ids are distinct
  have hnodup_users : (db.users.map User.userId).Nodup := hwf.1
  have hnodup_pool : (pool.map (fun u => u.userId)).Nodup := by
    have hsub : pool.Sublist db.users := List.filter_sublist db.users
    exact List.Nodup.sublist (hsub.map (fun u => u.userId)) hnodup_users
  have hnodup_sorted : ((sortK (fun u => md5 (prID ++ u.userId)) pool).map
      (fun u => u.userId)).Nodup :=
    (List.Perm.nodup_iff (sortK_map_perm _ _ _)).mpr hnodup_pool
  have hnd : cands.Nodup := by
    rw [hcandsDef]
    exact List.Nodup.sublist (List.take_sublist _ _) hnodup_sorted
  set newpr : PullRequest := ⟨prID, name, authorID, PRStatus.OPEN, [], some db.clock, none⟩
    with hnewpr
  set dbA : DB := ⟨db.teams, db.users, db.prs ++ [newpr], db.reviewers, db.clock⟩ with hdbA
  have hfold := foldl_insertReviewerRow prID cands dbA (fun c _ => hnorow c) hnd
  have hfind0 : db.prs.find? (fun q => q.id == prID) = none := hfind
  have hfind2 : findPR (List.foldl (fun d uid => insertReviewerRow prID uid d) dbA cands)
      prID = some newpr := by
    unfold findPR
    rw [hfold.2.2.1]
    show (db.prs ++ [newpr]).find? (fun q => q.id == prID) = _
    rw [List.find?_append, hfind0]
    simp [hnewpr]
  have hrev : (List.foldl (fun d uid => insertReviewerRow prID uid d) dbA cands).reviewers =
      db.reviewers ++ cands.map (fun c => (prID, c)) := hfold.1
  have hA : assignedReviewersOf (List.foldl (fun d uid => insertReviewerRow prID uid d)
      dbA cands) prID = sortK (fun x => x) cands := by
    unfold assignedReviewersOf
    rw [hrev, List.filter_append]
    have h1 : db.reviewers.filter (fun rv => rv.1 == prID) = [] := by
      rw [List.filter_eq_nil_iff]
      intro rv hmem
      rcases hwf.2.2.2.2.1 rv hmem with ⟨pr2, hpr2, hpr2id⟩
      have hne := List.find?_eq_none.mp hfind pr2 hpr2
      intro hcontra
      apply hne
      show (pr2.id == prID) = true
      rw [hpr2id]
      exact hcontra
    have h2 : (cands.map (fun c => (prID, c))).filter (fun rv => rv.1 == prID) =
        cands.map (fun c => (prID, c)) := by
      rw [List.filter_eq_self]
      intro rv hmem
      rcases List.mem_map.mp hmem with ⟨c, _, rfl⟩
      simp
    rw [h1, h2]
    simp only [List.nil_append, List.map_map]
    have hcomp : ((fun rv : String × String => rv.2) ∘ (fun c => (prID, c))) = id := by
      funext c
      rfl
    rw [hcomp, List.map_id]
  rw [hfind2] at hok
  simp only [] at hok
  rw [hA] at hok
  have hpreq : pr = ⟨prID, name, authorID, PRStatus.OPEN, sortK (fun x => x) cands, some db.clock, none⟩ :=
    ((Except.ok.injEq _ _).mp hok).symm
  refine ⟨au, rfl, ?_, ?_, ?_⟩
  · rw [hpreq]
    show (sortK (fun x => x) cands).length = _
    rw [sortK_length, hcandsDef, List.length_take, List.length_map, sortK_length, hpoolDef]
  · rw [hpreq]
    show authorID ∉ sortK (fun x => x) cands
    intro hmem
    have hmem2 : authorID ∈ cands := (sortK_mem _ _ _).mp hmem
    have hmem3 : authorID ∈ (sortK (fun u => md5 (prID ++ u.userId)) pool).map
        (fun u => u.userId) := by
      rw [hcandsDef] at hmem2
      exact (List.take_sublist _ _).subset hmem2
    rcases List.mem_map.mp hmem3 with ⟨u, hu, huid⟩
    have hu2 : u ∈ pool := (sortK_mem _ _ _).mp hu
    rw [hpoolDef] at hu2
    have hu3 := (List.mem_filter.mp hu2).2
    rw [Bool.and_eq_true, Bool.and_eq_true] at hu3
    have := hu3.2
    rw [huid] at this
    simp at this
  · rw [hpreq]
    show (sortK (fun x => x) cands).Nodup
    exact (List.Perm.nodup_iff (sortK_perm _ _)).mpr hnd

theorem mem_assignedReviewersOf (db : DB) (p o : String) :
    o ∈ assignedReviewersOf db p ↔ (p, o) ∈ db.reviewers := by
  unfold assignedReviewersOf
  rw [sortK_mem]
  constructor
  · intro h
    rcases List.mem_map.mp h with ⟨rv, hrv, hsnd⟩
    have hfil := List.mem_filter.mp hrv
    have hfst : rv.1 = p := beq_iff_eq.mp hfil.2
    have : rv = (p, o) := by
      rcases rv with ⟨a, b⟩
      simp only [Prod.mk.injEq]
      exact ⟨hfst, hsnd⟩
    rw [← this]
    exact hfil.1
  · intro h
    apply List.mem_map.mpr
    refine ⟨(p, o), ?_, rfl⟩
    apply List.mem_filter.mpr
    exact ⟨h, by simp⟩

theorem contains_eq_true_iff (l : List String) (a : String) :
    (l.contains a) = true ↔ a ∈ l := by
  exact List.elem_iff

theorem contains_append_singleton (l : List String) (a x : String) :
    ((l ++ [a]).contains x) = (l.contains x || x == a) := by
  by_cases h2 : x = a
  · simp [h2]
  · simp [h2]

theorem reassign_cases (md5 : String → String) (db : DB) (p o : String)
    (hwf : WF db) (hsane : SaneUserIds db) :
    (findPR db p = none ∧
      runSvc (Service.Reassign (pgRepo md5) p o) db =
        (Except.error (wrapCode ErrNotFound "PR not found"), db)) ∨
    (∃ pr, findPR db p = some pr ∧ pr.status = PRStatus.MERGED ∧
      runSvc (Service.Reassign (pgRepo md5) p o) db =
        (Except.error (wrapCode ErrPRMerged "cannot reassign on merged PR"), db)) ∨
    (∃ pr, findPR db p = some pr ∧ pr.status = PRStatus.OPEN ∧
      o ∉ assignedReviewersOf db p ∧
      runSvc (Service.Reassign (pgRepo md5) p o) db =
        (Except.error (wrapCode ErrNotAssigned "reviewer is not assigned to this PR"), db)) ∨
    (∃ pr ou, findPR db p = some pr ∧ pr.status = PRStatus.OPEN ∧
      o ∈ assignedReviewersOf db p ∧ findUser db o = some ou ∧
      db.users.filter (fun u => u.teamName == ou.teamName && u.isActive &&
        !((assignedReviewersOf db p).contains u.userId) && !(u.userId == pr.authorId)) = [] ∧
      runSvc (Service.Reassign (pgRepo md5) p o) db =
        (Except.error (wrapCode ErrNoCandidate "no active replacement candidate in team"), db)) ∨
    (∃ pr ou uc, findPR db p = some pr ∧ pr.status = PRStatus.OPEN ∧
      o ∈ assignedReviewersOf db p ∧ findUser db o = some ou ∧
      uc ∈ db.users ∧ uc.teamName = ou.teamName ∧ uc.isActive = true ∧
      uc.userId ∉ assignedReviewersOf db p ∧ uc.userId ≠ pr.authorId ∧
      runSvc (Service.Reassign (pgRepo md5) p o) db =
        (Except.ok ({ pr with assignedReviewers :=
            assignedReviewersOf (insertReviewerRow p uc.userId (deleteReviewerRow p o db)) p },
          uc.userId),
         insertReviewerRow p uc.userId (deleteReviewerRow p o db))) := by
  unfold Service.Reassign
  simp only [runSvc_def, RM.run_bind, pgRepo_WithTx, pgRepo_GetPR, pgRepo_GetUser,
    pgRepo_GetAssignedReviewers, pgRepo_PickReviewersFromTeam, pgRepo_ReplaceReviewer]
  unfold pgWithTx PostgresRepo.GetPR PostgresRepo.GetUser PostgresRepo.GetAssignedReviewers
    PostgresRepo.PickReviewersFromTeam PostgresRepo.ReplaceReviewer
  simp only [RM.run_bind, RM.run_attempt, RM.run_dbRead, RM.run_txWrite, RM.run_pure,
    RM.run_fail, RM.run_ignoreErr]
  rcases hfind : findPR db p with _ | pr
  case none =>
    left
    exact ⟨rfl, rfl⟩
  case some =>
  rcases hst : pr.status with _ | _
  case MERGED =>
    right
    left
    refine ⟨pr, rfl, hst, ?_⟩
    simp only [hst]
    rfl
  case OPEN =>
  simp only [hst]
  simp only [show (PRStatus.OPEN == PRStatus.MERGED) = false from rfl, Bool.false_eq_true,
    if_false, RM.run_bind, RM.run_pure, RM.run_dbRead, RM.run_fail, RM.run_txWrite]
  by_cases hmem : o ∈ assignedReviewersOf db p
  case neg =>
    have hcont : ((assignedReviewersOf db p).contains o) = false := by
      rw [← Bool.not_eq_true]
      intro hc
      exact hmem ((contains_eq_true_iff _ _).mp hc)
    right
    right
    left
    refine ⟨pr, rfl, hst, hmem, ?_⟩
    simp only [hcont]
    rfl
  case pos =>
  have hcont : ((assignedReviewersOf db p).contains o) = true :=
    (contains_eq_true_iff _ _).mpr hmem
  simp only [hcont, Bool.not_true, Bool.false_eq_true, if_false]
  have hexu : ∃ u, findUser db o = some u := by
    rcases hwf.2.2.2.1 (p, o) ((mem_assignedReviewersOf db p o).mp hmem) with ⟨u, hu, huid⟩
    cases hou : findUser db o with
    | some u2 => exact ⟨u2, rfl⟩
    | none =>
      exfalso
      apply List.find?_eq_none.mp hou u hu
      show (u.userId == o) = true
      rw [huid]
      simp
  rcases hexu with ⟨ou, hou⟩
  simp only [RM.run_bind, RM.run_pure, RM.run_dbRead, RM.run_fail, RM.run_txWrite, hou]
  have hsane_excl : ∀ e ∈ assignedReviewersOf db p ++ [pr.authorId], saneId e = true := by
    intro e he
    rcases List.mem_append.mp he with he1 | he2
    · rcases hwf.2.2.2.1 (p, e) ((mem_assignedReviewersOf db p e).mp he1) with ⟨u, hu, huid⟩
      have huid2 : u.userId = e := huid
      rw [← huid2]
      exact hsane u hu
    · have he3 : e = pr.authorId := by simpa using he2
      rcases hwf.2.2.2.2.2 pr (List.mem_of_find?_eq_some hfind) with ⟨ua, hua, huaid⟩
      rw [he3, ← huaid]
      exact hsane ua hua
  have hparse := pgParse_pq_of_sane _ hsane_excl
  have hpick : pickReviewersQuery md5 db p ou.teamName
      (assignedReviewersOf db p ++ [pr.authorId]) 1 =
      Except.ok (((sortK (fun u => md5 (p ++ u.userId))
        (db.users.filter (fun u => u.teamName == ou.teamName && u.isActive &&
          !((assignedReviewersOf db p).contains u.userId) && !(u.userId == pr.authorId)))).map
            (fun u => u.userId)).take 1) := by
    unfold pickReviewersQuery
    rw [hparse]
    simp only []
    have hfiltereq : (db.users.filter (fun u => u.teamName == ou.teamName && u.isActive &&
        ((assignedReviewersOf db p ++ [pr.authorId]).isEmpty ||
          !((assignedReviewersOf db p ++ [pr.authorId]).contains u.userId)))) =
      (db.users.filter (fun u => u.teamName == ou.teamName && u.isActive &&
        !((assignedReviewersOf db p).contains u.userId) && !(u.userId == pr.authorId))) := by
      apply List.filter_congr
      intro u _
      have hne : ((assignedReviewersOf db p ++ [pr.authorId]).isEmpty) = false := by simp
      rw [hne, contains_append_singleton]
      simp [Bool.not_or, Bool.and_assoc]
    rw [hfiltereq]
  rw [hpick]
  simp only []
  rcases hcands : ((sortK (fun u => md5 (p ++ u.userId))
      (db.users.filter (fun u => u.teamName == ou.teamName && u.isActive &&
        !((assignedReviewersOf db p).contains u.userId) && !(u.userId == pr.authorId)))).map
          (fun u => u.userId)).take 1 with _ | ⟨c, rest⟩
  case nil =>
    right
    right
    right
    left
    have h1 : ((sortK (fun u => md5 (p ++ u.userId))
        (db.users.filter (fun u => u.teamName == ou.teamName && u.isActive &&
          !((assignedReviewersOf db p).contains u.userId) && !(u.userId == pr.authorId)))).map
            (fun u => u.userId)) = [] := by
      cases h2 : ((sortK (fun u => md5 (p ++ u.userId))
          (db.users.filter (fun u => u.teamName == ou.teamName && u.isActive &&
            !((assignedReviewersOf db p).contains u.userId) && !(u.userId == pr.authorId)))).map
              (fun u => u.userId)) with
      | nil => rfl
      | cons x xs =>
        rw [h2] at hcands
        simp at hcands
    have h2 : (sortK (fun u => md5 (p ++ u.userId))
        (db.users.filter (fun u => u.teamName == ou.teamName && u.isActive &&
          !((assignedReviewersOf db p).contains u.userId) && !(u.userId == pr.authorId)))) = [] :=
      List.map_eq_nil_iff.mp h1
    have hperm := sortK_perm (fun u => md5 (p ++ u.userId))
        (db.users.filter (fun u => u.teamName == ou.teamName && u.isActive &&
          !((assignedReviewersOf db p).contains u.userId) && !(u.userId == pr.authorId)))
    rw [h2] at hperm
    have hpool_nil := hperm.symm.eq_nil
    refine ⟨pr, ou, rfl, hst, hmem, rfl, hpool_nil, ?_⟩
    rw [hcands]
    rfl
  case cons =>
    right
    right
    right
    right
    have hcmem : c ∈ (sortK (fun u => md5 (p ++ u.userId))
        (db.users.filter (fun u => u.teamName == ou.teamName && u.isActive &&
          !((assignedReviewersOf db p).contains u.userId) && !(u.userId == pr.authorId)))).map
            (fun u => u.userId) := by
      have h1 : c ∈ c :: rest := List.mem_cons_self c rest
      rw [← hcands] at h1
      exact (List.take_sublist _ _).subset h1
    rcases List.mem_map.mp hcmem with ⟨uc, hucsorted, hucid⟩
    have hucpool : uc ∈ db.users.filter (fun u => u.teamName == ou.teamName && u.isActive &&
        !((assignedReviewersOf db p).contains u.userId) && !(u.userId == pr.authorId)) :=
      (sortK_mem _ _ _).mp hucsorted
    have hucfacts := List.mem_filter.mp hucpool
    have hucuser : uc ∈ db.users := hucfacts.1
    have hcond := hucfacts.2
    rw [Bool.and_eq_true, Bool.and_eq_true, Bool.and_eq_true] at hcond
    have hteam : uc.teamName = ou.teamName := beq_iff_eq.mp hcond.1.1.1
    have hactive : uc.isActive = true := hcond.1.1.2
    have hncont : uc.userId ∉ assignedReviewersOf db p := by
      have h3 := hcond.1.2
      intro hmemc
      rw [(contains_eq_true_iff _ _).mpr hmemc] at h3
      simp at h3
    have hnauth : uc.userId ≠ pr.authorId := by
      have h3 := hcond.2
      intro he
      rw [he] at h3
      simp at h3
    have hprs2 : (insertReviewerRow p c (deleteReviewerRow p o db)).prs = db.prs :=
      (insertReviewerRow_frame p c (deleteReviewerRow p o db)).2.1
    have hfind2 : findPR (insertReviewerRow p c (deleteReviewerRow p o db)) p = some pr := by
      unfold findPR
      rw [hprs2]
      exact hfind
    refine ⟨pr, ou, uc, rfl, hst, hmem, rfl, hucuser, hteam, hactive, hncont, hnauth, ?_⟩
    rw [hcands, ← hucid]
    simp only [RM.run_bind, RM.run_txWrite, RM.run_pure]
    rw [hucid]
    simp only [hfind2]

theorem mem_insertReviewerRow_iff (prID uid : String) (db : DB) (rv : String × String) :
    rv ∈ (insertReviewerRow prID uid db).reviewers ↔
      rv ∈ db.reviewers ∨ rv = (prID, uid) := by
  unfold insertReviewerRow
  by_cases h : (prID, uid) ∈ db.reviewers
  · rw [if_pos (List.elem_iff.mpr h)]
    constructor
    · intro h2
      exact Or.inl h2
    · rintro (h2 | h2)
      · exact h2
      · rw [h2]
        exact h
  · rw [if_neg (fun hc => h (List.elem_iff.mp hc))]
    simp

theorem mem_deleteReviewerRow_iff (prID uid : String) (db : DB) (rv : String × String) :
    rv ∈ (deleteReviewerRow prID uid db).reviewers ↔
      rv ∈ db.reviewers ∧ rv ≠ (prID, uid) := by
  unfold deleteReviewerRow
  simp only [List.mem_filter]
  constructor
  · rintro ⟨h1, h2⟩
    refine ⟨h1, ?_⟩
    intro he
    rw [he] at h2
    simp at h2
  · rintro ⟨h1, h2⟩
    refine ⟨h1, ?_⟩
    simpa using h2

theorem error_pair_ne {α : Type} (e1 e2 : String) (d : DB) (h : e1 = e2 → False) :
    ((Except.error e1 : Except String α), d).1 = Except.error e2 → False := by
  intro hc
  have hc2 : (Except.error e1 : Except String α) = Except.error e2 := hc
  injection hc2 with hstr
  exact h hstr

theorem error_pair_ne_ok {α : Type} (e : String) (d : DB) (w : α) :
    ((Except.error e : Except String α), d).1 = Except.ok w → False := by
  intro hc
  have hc2 : (Except.error e : Except String α) = Except.ok w := hc
  exact Except.noConfusion hc2

theorem ok_pair_ne_error {α : Type} (a : α) (e2 : String) (d : DB) :
    ((Except.ok a : Except String α), d).1 = Except.error e2 → False := by
  intro hc
  have hc2 : (Except.ok a : Except String α) = Except.error e2 := hc
  exact Except.noConfusion hc2

/-- C3 (amended): on a well-formed store whose user ids are nonempty and
free of array-literal metacharacters, Reassign fails NOT_FOUND exactly when
the PR is missing, PR_MERGED exactly when it exists and is MERGED,
NOT_ASSIGNED exactly when it is OPEN and the old user is not assigned,
NO_CANDIDATE exactly when no active user of the old user's team outside
current assignees and author exists; on success the selected candidate is
such a user, the old id is removed, the candidate inserted, and the updated
PR plus the replacement id are returned; no other outcome occurs. -/
theorem reassign_error_taxonomy (md5 : String → String) (db : DB) (p o : String)
    (hwf : WF db) (hsane : SaneUserIds db) :
    ((runSvc (Service.Reassign (pgRepo md5) p o) db).1 =
        Except.error (wrapCode ErrNotFound "PR not found") ↔ findPR db p = none) ∧
    ((runSvc (Service.Reassign (pgRepo md5) p o) db).1 =
        Except.error (wrapCode ErrPRMerged "cannot reassign on merged PR") ↔
      ∃ pr, findPR db p = some pr ∧ pr.status = PRStatus.MERGED) ∧
    ((runSvc (Service.Reassign (pgRepo md5) p o) db).1 =
        Except.error (wrapCode ErrNotAssigned "reviewer is not assigned to this PR") ↔
      ∃ pr, findPR db p = some pr ∧ pr.status = PRStatus.OPEN ∧
        o ∉ assignedReviewersOf db p) ∧
    ((runSvc (Service.Reassign (pgRepo md5) p o) db).1 =
        Except.error (wrapCode ErrNoCandidate "no active replacement candidate in team") ↔
      ∃ pr ou, findPR db p = some pr ∧ pr.status = PRStatus.OPEN ∧
        o ∈ assignedReviewersOf db p ∧ findUser db o = some ou ∧
        db.users.filter (fun u => u.teamName == ou.teamName && u.isActive &&
          !((assignedReviewersOf db p).contains u.userId) && !(u.userId == pr.authorId)) = []) ∧
    (∀ prOut c, (runSvc (Service.Reassign (pgRepo md5) p o) db).1 = Except.ok (prOut, c) →
      ∃ pr ou uc, findPR db p = some pr ∧ pr.status = PRStatus.OPEN ∧
        o ∈ assignedReviewersOf db p ∧ findUser db o = some ou ∧
        uc ∈ db.users ∧ uc.userId = c ∧ uc.teamName = ou.teamName ∧ uc.isActive = true ∧
        c ∉ assignedReviewersOf db p ∧ c ≠ pr.authorId ∧
        o ∉ assignedReviewersOf (runSvc (Service.Reassign (pgRepo md5) p o) db).2 p ∧
        c ∈ assignedReviewersOf (runSvc (Service.Reassign (pgRepo md5) p o) db).2 p ∧
        prOut.assignedReviewers =
          assignedReviewersOf (runSvc (Service.Reassign (pgRepo md5) p o) db).2 p) ∧
    ((runSvc (Service.Reassign (pgRepo md5) p o) db).1 =
        Except.error (wrapCode ErrNotFound "PR not found") ∨
     (runSvc (Service.Reassign (pgRepo md5) p o) db).1 =
        Except.error (wrapCode ErrPRMerged "cannot reassign on merged PR") ∨
     (runSvc (Service.Reassign (pgRepo md5) p o) db).1 =
        Except.error (wrapCode ErrNotAssigned "reviewer is not assigned to this PR") ∨
     (runSvc (Service.Reassign (pgRepo md5) p o) db).1 =
        Except.error (wrapCode ErrNoCandidate "no active replacement candidate in team") ∨
     ∃ w, (runSvc (Service.Reassign (pgRepo md5) p o) db).1 = Except.ok w) := by
  rcases reassign_cases md5 db p o hwf hsane with
      ⟨h1, hrun⟩ | ⟨pr, h1, h2, hrun⟩ | ⟨pr, h1, h2, h3, hrun⟩ |
      ⟨pr, ou, h1, h2, h3, h4, h5, hrun⟩ |
      ⟨pr, ou, uc, h1, h2, h3, h4, h5, h6, h7, h8, h9, hrun⟩
  · rw [hrun]
    refine ⟨⟨fun _ => h1, fun _ => rfl⟩, ?_, ?_, ?_, ?_, ?_⟩
    · refine ⟨fun he => absurd he (error_pair_ne _ _ _ (by decide)), ?_⟩
      rintro ⟨pr2, hp, _⟩
      rw [h1] at hp
      exact Option.noConfusion hp
    · refine ⟨fun he => absurd he (error_pair_ne _ _ _ (by decide)), ?_⟩
      rintro ⟨pr2, hp, _⟩
      rw [h1] at hp
      exact Option.noConfusion hp
    · refine ⟨fun he => absurd he (error_pair_ne _ _ _ (by decide)), ?_⟩
      rintro ⟨pr2, ou2, hp, _⟩
      rw [h1] at hp
      exact Option.noConfusion hp
    · exact fun prOut c hko => absurd hko (error_pair_ne_ok _ _ _)
    · left
      rfl
  · rw [hrun]
    refine ⟨?_, ⟨fun _ => ⟨pr, h1, h2⟩, fun _ => rfl⟩, ?_, ?_, ?_, ?_⟩
    · refine ⟨fun he => absurd he (error_pair_ne _ _ _ (by decide)), ?_⟩
      intro hn
      rw [h1] at hn
      exact Option.noConfusion hn
    · refine ⟨fun he => absurd he (error_pair_ne _ _ _ (by decide)), ?_⟩
      rintro ⟨pr2, hp, hop, _⟩
      rw [h1] at hp
      have hpr2 : pr2 = pr := (Option.some.injEq _ _).mp hp.symm
      rw [hpr2, h2] at hop
      exact PRStatus.noConfusion hop
    · refine ⟨fun he => absurd he (error_pair_ne _ _ _ (by decide)), ?_⟩
      rintro ⟨pr2, ou2, hp, hop, _⟩
      rw [h1] at hp
      have hpr2 : pr2 = pr := (Option.some.injEq _ _).mp hp.symm
      rw [hpr2, h2] at hop
      exact PRStatus.noConfusion hop
    · exact fun prOut c hko => absurd hko (error_pair_ne_ok _ _ _)
    · right
      left
      rfl
  · rw [hrun]
    refine ⟨?_, ?_, ⟨fun _ => ⟨pr, h1, h2, h3⟩, fun _ => rfl⟩, ?_, ?_, ?_⟩
    · refine ⟨fun he => absurd he (error_pair_ne _ _ _ (by decide)), ?_⟩
      intro hn
      rw [h1] at hn
      exact Option.noConfusion hn
    · refine ⟨fun he => absurd he (error_pair_ne _ _ _ (by decide)), ?_⟩
      rintro ⟨pr2, hp, hop⟩
      rw [h1] at hp
      have hpr2 : pr2 = pr := (Option.some.injEq _ _).mp hp.symm
      rw [hpr2, h2] at hop
      exact PRStatus.noConfusion hop
    · refine ⟨fun he => absurd he (error_pair_ne _ _ _ (by decide)), ?_⟩
      rintro ⟨pr2, ou2, hp, hop, ho, _⟩
      exact absurd ho h3
    · exact fun prOut c hko => absurd hko (error_pair_ne_ok _ _ _)
    · right
      right
      left
      rfl
  · rw [hrun]
    refine ⟨?_, ?_, ?_, ⟨fun _ => ⟨pr, ou, h1, h2, h3, h4, h5⟩, fun _ => rfl⟩, ?_, ?_⟩
    · refine ⟨fun he => absurd he (error_pair_ne _ _ _ (by decide)), ?_⟩
      intro hn
      rw [h1] at hn
      exact Option.noConfusion hn
    · refine ⟨fun he => absurd he (error_pair_ne _ _ _ (by decide)), ?_⟩
      rintro ⟨pr2, hp, hop⟩
      rw [h1] at hp
      have hpr2 : pr2 = pr := (Option.some.injEq _ _).mp hp.symm
      rw [hpr2, h2] at hop
      exact PRStatus.noConfusion hop
    · refine ⟨fun he => absurd he (error_pair_ne _ _ _ (by decide)), ?_⟩
      rintro ⟨pr2, hp, hop, ho⟩
      exact absurd h3 ho
    · exact fun prOut c hko => absurd hko (error_pair_ne_ok _ _ _)
    · right
      right
      right
      left
      rfl
  · rw [hrun]
    have hereq : uc.userId ≠ o := by
      intro he
      rw [he] at h8
      exact h8 h3
    refine ⟨?_, ?_, ?_, ?_, ?_, ?_⟩
    · refine ⟨fun he => absurd he (ok_pair_ne_error _ _ _), ?_⟩
      intro hn
      rw [h1] at hn
      exact Option.noConfusion hn
    · refine ⟨fun he => absurd he (ok_pair_ne_error _ _ _), ?_⟩
      rintro ⟨pr2, hp, hop⟩
      rw [h1] at hp
      have hpr2 : pr2 = pr := (Option.some.injEq _ _).mp hp.symm
      rw [hpr2, h2] at hop
      exact PRStatus.noConfusion hop
    · refine ⟨fun he => absurd he (ok_pair_ne_error _ _ _), ?_⟩
      rintro ⟨pr2, hp, hop, ho⟩
      exact absurd h3 ho
    · refine ⟨fun he => absurd he (ok_pair_ne_error _ _ _), ?_⟩
      rintro ⟨pr2, ou2, hp, hop, ho, hu, hfil⟩
      rw [h1] at hp
      have hpr2 : pr2 = pr := (Option.some.injEq _ _).mp hp.symm
      rw [h4] at hu
      have hou2 : ou2 = ou := (Option.some.injEq _ _).mp hu.symm
      rw [hpr2, hou2] at hfil
      have hucin : uc ∈ db.users.filter (fun u => u.teamName == ou.teamName && u.isActive &&
          !((assignedReviewersOf db p).contains u.userId) && !(u.userId == pr.authorId)) := by
        apply List.mem_filter.mpr
        refine ⟨h5, ?_⟩
        rw [Bool.and_eq_true, Bool.and_eq_true, Bool.and_eq_true]
        refine ⟨⟨⟨beq_iff_eq.mpr h6, h7⟩, ?_⟩, ?_⟩
        · rw [Bool.not_eq_true']
          rw [← Bool.not_eq_true]
          intro hcc
          exact h8 ((contains_eq_true_iff _ _).mp hcc)
        · rw [Bool.not_eq_true']
          rw [← Bool.not_eq_true]
          intro hcc
          exact h9 (beq_iff_eq.mp hcc)
      rw [hfil] at hucin
      exact absurd hucin (List.not_mem_nil uc)
    · intro prOut c hko
      have hpair := (Except.ok.injEq _ _).mp hko
      have hprOut := ((Prod.mk.injEq _ _ _ _).mp hpair).1
      have hcid := ((Prod.mk.injEq _ _ _ _).mp hpair).2
      refine ⟨pr, ou, uc, h1, h2, h3, h4, h5, hcid, h6, h7, ?_, ?_, ?_, ?_, ?_⟩
      · rw [← hcid]
        exact h8
      · rw [← hcid]
        exact h9
      · intro hmem2
        have hm3 := (mem_assignedReviewersOf _ p o).mp hmem2
        rcases (mem_insertReviewerRow_iff _ _ _ _).mp hm3 with hin | heq
        · exact ((mem_deleteReviewerRow_iff _ _ _ _).mp hin).2 rfl
        · exact hereq ((Prod.mk.injEq _ _ _ _).mp heq).2.symm
      · rw [← hcid]
        apply (mem_assignedReviewersOf _ p uc.userId).mpr
        apply (mem_insertReviewerRow_iff _ _ _ _).mpr
        right
        rfl
      · rw [← hprOut]
    · right
      right
      right
      right
      exact ⟨_, rfl⟩


theorem pick_head_facts (md5 : String → String) (db : DB) (p team : String)
    (excl : List String) (n : Nat) (c : String) (tail : List String)
    (hsane_excl : ∀ e ∈ excl, saneId e = true)
    (hpq : pickReviewersQuery md5 db p team excl n = Except.ok (c :: tail)) :
    ∃ uc ∈ db.users, uc.userId = c ∧ uc.teamName = team ∧ uc.isActive = true ∧ c ∉ excl := by
  unfold pickReviewersQuery at hpq
  rw [pgParse_pq_of_sane excl hsane_excl] at hpq
  simp only [] at hpq
  have hpq2 := (Except.ok.injEq _ _).mp hpq
  have hcmem : c ∈ ((sortK (fun u => md5 (p ++ u.userId))
      (db.users.filter (fun u => u.teamName == team && u.isActive &&
        (excl.isEmpty || !(excl.contains u.userId))))).map (fun u => u.userId)) := by
    have h1 : c ∈ c :: tail := List.mem_cons_self c tail
    rw [← hpq2] at h1
    exact (List.take_sublist _ _).subset h1
  rcases List.mem_map.mp hcmem with ⟨uc, hucsorted, hucid⟩
  have hucpool := (sortK_mem _ _ _).mp hucsorted
  have hucfacts := List.mem_filter.mp hucpool
  refine ⟨uc, hucfacts.1, hucid, ?_, ?_, ?_⟩
  · have h2 := hucfacts.2
    rw [Bool.and_eq_true, Bool.and_eq_true] at h2
    exact beq_iff_eq.mp h2.1.1
  · have h2 := hucfacts.2
    rw [Bool.and_eq_true, Bool.and_eq_true] at h2
    exact h2.1.2
  · have h2 := hucfacts.2
    rw [Bool.and_eq_true, Bool.and_eq_true] at h2
    have h3 := h2.2
    intro hcmem2
    have hne : excl.isEmpty = false := by
      cases excl with
      | nil => exact absurd hcmem2 (List.not_mem_nil c)
      | cons x xs => rfl
    rw [hne, Bool.false_or, Bool.not_eq_true'] at h3
    rw [← hucid] at hcmem2
    rw [(contains_eq_true_iff _ _).mpr hcmem2] at h3
    exact Bool.noConfusion h3

theorem processOpenAssignments_ok (md5 : String → String) (items : List OpenAssignment) :
    ∀ (s : TxState) (outs : List BulkReassignOutcome) (s1 : TxState),
    WF s.base → SaneUserIds s.base →
    (∀ item ∈ items, saneId item.authorId = true) →
    Service.processOpenAssignments (pgRepo md5) items s = (Except.ok outs, s1) →
    s1.base = s.base ∧
    outs.map (fun o => (o.prId, o.oldUserId)) = items.map (fun i => (i.prId, i.oldUserId)) ∧
    (∀ out ∈ outs,
      (out.action = "replaced" ∧ ∃ c, out.replacedBy = some c) ∨
      (out.action = "removed" ∧ out.replacedBy = none)) ∧
    (∀ rv ∈ s1.txdb.reviewers,
      (rv ∈ s.txdb.reviewers ∧ rv ∉ items.map (fun i => (i.prId, i.oldUserId))) ∨
      (∃ u ∈ s.base.users, u.isActive = true ∧ u.userId = rv.2)) ∧
    (∀ out ∈ outs, ∀ c, out.replacedBy = some c →
      ∃ item ∈ items, item.prId = out.prId ∧ item.oldUserId = out.oldUserId ∧
        ∃ uc ∈ s.base.users, uc.userId = c ∧ uc.isActive = true ∧
          uc.teamName = item.oldUserTeam ∧
          c ∉ assignedReviewersOf s.base out.prId ∧ c ≠ item.authorId) := by
  induction items with
  | nil =>
    intro s outs s1 hwf hsane hitems hrun
    have hrun2 : ((Except.ok ([] : List BulkReassignOutcome), s) :
        Except String (List BulkReassignOutcome) × TxState) = (Except.ok outs, s1) := hrun
    have hpair := Prod.mk.injEq _ _ _ _ ▸ hrun2
    have houts : outs = [] := (Except.ok.inj (congrArg Prod.fst hrun2)).symm
    have hs1 : s1 = s := (congrArg Prod.snd hrun2).symm
    subst houts
    subst hs1
    refine ⟨rfl, rfl, ?_, ?_, ?_⟩
    · intro out hout
      exact absurd hout (List.not_mem_nil out)
    · intro rv hrv
      left
      exact ⟨hrv, by simp⟩
    · intro out hout
      exact absurd hout (List.not_mem_nil out)
  | cons item rest ih =>
    intro s outs s1 hwf hsane hitems hrun
    unfold Service.processOpenAssignments at hrun
    simp only [RM.run_bind, pgRepo_GetAssignedReviewers, pgRepo_PickReviewersFromTeam,
      pgRepo_ReplaceReviewer, pgRepo_DeleteReviewer] at hrun
    unfold PostgresRepo.GetAssignedReviewers PostgresRepo.PickReviewersFromTeam
      PostgresRepo.ReplaceReviewer PostgresRepo.DeleteReviewer at hrun
    simp only [RM.run_bind, RM.run_dbRead, RM.run_txWrite, RM.run_pure] at hrun
    rcases hpq : pickReviewersQuery md5 s.base item.prId item.oldUserTeam
        (assignedReviewersOf s.base item.prId ++ [item.authorId]) 1 with e | cands
    · rw [hpq] at hrun
      simp only [] at hrun
      exact absurd hrun (by simp)
    · rw [hpq] at hrun
      simp only [] at hrun
      have hsane_excl : ∀ e ∈ assignedReviewersOf s.base item.prId ++ [item.authorId],
          saneId e = true := by
        intro e he
        rcases List.mem_append.mp he with he1 | he2
        · rcases hwf.2.2.2.1 (item.prId, e)
              ((mem_assignedReviewersOf s.base item.prId e).mp he1) with ⟨u, hu, huid⟩
          have huid2 : u.userId = e := huid
          rw [← huid2]
          exact hsane u hu
        · have he3 : e = item.authorId := by simpa using he2
          rw [he3]
          exact hitems item (List.mem_cons_self item rest)
      rcases cands with _ | ⟨c, ctail⟩
      · simp only [] at hrun
        simp only [RM.run_bind, RM.run_txWrite, RM.run_pure] at hrun
        rcases hrec : Service.processOpenAssignments (pgRepo md5) rest
            ⟨s.base, deleteReviewerRow item.prId item.oldUserId s.txdb⟩ with ⟨res2, s2⟩
        rw [hrec] at hrun
        rcases res2 with e2 | outs2
        · simp only [] at hrun
          exact absurd hrun (by simp)
        · simp only [] at hrun
          have houts : outs =
              (⟨item.prId, item.oldUserId, "removed", none⟩ : BulkReassignOutcome) :: outs2 :=
            (Except.ok.inj (congrArg Prod.fst hrun)).symm
          have hs1 : s1 = s2 := (congrArg Prod.snd hrun).symm
          subst houts
          subst hs1
          rcases ih ⟨s.base, deleteReviewerRow item.prId item.oldUserId s.txdb⟩ outs2 s1
              hwf hsane (fun i hi => hitems i (List.mem_cons_of_mem item hi)) hrec
            with ⟨ha, hb, hc, hd, he⟩
          refine ⟨ha, ?_, ?_, ?_, ?_⟩
          · simp only [List.map_cons, hb]
          · intro out hout
            rcases List.mem_cons.mp hout with h1 | h1
            · right
              rw [h1]
              exact ⟨rfl, rfl⟩
            · exact hc out h1
          · intro rv hrv
            rcases hd rv hrv with ⟨hd1, hd2⟩ | hd2
            · rcases (mem_deleteReviewerRow_iff _ _ _ _).mp hd1 with ⟨hm, hne⟩
              left
              refine ⟨hm, ?_⟩
              simp only [List.map_cons, List.mem_cons]
              rintro (h2 | h2)
              · exact hne h2
              · exact hd2 h2
            · right
              exact hd2
          · intro out hout c' hrep
            rcases List.mem_cons.mp hout with h1 | h1
            · rw [h1] at hrep
              exact absurd hrep (by simp)
            · rcases he out h1 c' hrep with ⟨item2, hitem2, hfacts⟩
              exact ⟨item2, List.mem_cons_of_mem item hitem2, hfacts⟩
      · simp only [] at hrun
        simp only [RM.run_bind, RM.run_txWrite, RM.run_pure] at hrun
        rcases hrec : Service.processOpenAssignments (pgRepo md5) rest
            ⟨s.base, insertReviewerRow item.prId c
              (deleteReviewerRow item.prId item.oldUserId s.txdb)⟩ with ⟨res2, s2⟩
        rw [hrec] at hrun
        rcases res2 with e2 | outs2
        · simp only [] at hrun
          exact absurd hrun (by simp)
        · simp only [] at hrun
          have houts : outs =
              (⟨item.prId, item.oldUserId, "replaced", some c⟩ : BulkReassignOutcome) :: outs2 :=
            (Except.ok.inj (congrArg Prod.fst hrun)).symm
          have hs1 : s1 = s2 := (congrArg Prod.snd hrun).symm
          subst houts
          subst hs1
          rcases pick_head_facts md5 s.base item.prId item.oldUserTeam
              (assignedReviewersOf s.base item.prId ++ [item.authorId]) 1 c ctail
              hsane_excl hpq with ⟨uc, hucmem, hucid, hteam, hactive, hnexcl⟩
          have hnass : c ∉ assignedReviewersOf s.base item.prId := fun h =>
            hnexcl (List.mem_append.mpr (Or.inl h))
          have hnauth : c ≠ item.authorId := fun h =>
            hnexcl (List.mem_append.mpr (Or.inr (by simp [h])))
          rcases ih ⟨s.base, insertReviewerRow item.prId c
                (deleteReviewerRow item.prId item.oldUserId s.txdb)⟩ outs2 s1
              hwf hsane (fun i hi => hitems i (List.mem_cons_of_mem item hi)) hrec
            with ⟨ha, hb, hc, hd, he⟩
          refine ⟨ha, ?_, ?_, ?_, ?_⟩
          · simp only [List.map_cons, hb]
          · intro out hout
            rcases List.mem_cons.mp hout with h1 | h1
            · left
              rw [h1]
              exact ⟨rfl, c, rfl⟩
            · exact hc out h1
          · intro rv hrv
            rcases hd rv hrv with ⟨hd1, hd2⟩ | hd2
            · rcases (mem_insertReviewerRow_iff _ _ _ _).mp hd1 with h2 | h2
              · rcases (mem_deleteReviewerRow_iff _ _ _ _).mp h2 with ⟨hm, hne⟩
                left
                refine ⟨hm, ?_⟩
                simp only [List.map_cons, List.mem_cons]
                rintro (h3 | h3)
                · exact hne h3
                · exact hd2 h3
              · right
                rw [h2]
                exact ⟨uc, hucmem, hactive, hucid⟩
            · right
              exact hd2
          · intro out hout c' hrep
            rcases List.mem_cons.mp hout with h1 | h1
            · rw [h1] at hrep
              have hcc : c = c' := Option.some.inj hrep
              subst hcc
              rw [h1]
              refine ⟨item, List.mem_cons_self item rest, rfl, rfl,
                uc, hucmem, hucid, hactive, hteam, ?_, hnauth⟩
              exact hnass
            · rcases he out h1 c' hrep with ⟨item2, hitem2, hfacts⟩
              exact ⟨item2, List.mem_cons_of_mem item hitem2, hfacts⟩

theorem findPR_facts (db : DB) (p : String) (pr : PullRequest)
    (h : findPR db p = some pr) : pr ∈ db.prs ∧ pr.id = p := by
  refine ⟨List.mem_of_find?_eq_some h, ?_⟩
  have h0 := List.find?_some h
  have h2 : (pr.id == p) = true := h0
  exact beq_iff_eq.mp h2

theorem findUser_facts (db : DB) (x : String) (u : User)
    (h : findUser db x = some u) : u ∈ db.users ∧ u.userId = x := by
  refine ⟨List.mem_of_find?_eq_some h, ?_⟩
  have h0 := List.find?_some h
  have h2 : (u.userId == x) = true := h0
  exact beq_iff_eq.mp h2

theorem findUser_isSome_of_mem (db : DB) (u : User) (hu : u ∈ db.users) :
    ∃ u2, findUser db u.userId = some u2 := by
  cases h : findUser db u.userId with
  | some u2 => exact ⟨u2, rfl⟩
  | none =>
    exfalso
    apply List.find?_eq_none.mp h u hu
    show (u.userId == u.userId) = true
    simp

theorem nodup_userId_inj (users : List User) (hn : (users.map User.userId).Nodup)
    (a : User) (ha : a ∈ users) (b : User) (hb : b ∈ users)
    (hab : a.userId = b.userId) : a = b := by
  induction users with
  | nil => exact absurd ha (List.not_mem_nil a)
  | cons x xs ih =>
    rw [List.map_cons, List.nodup_cons] at hn
    rcases List.mem_cons.mp ha with ha1 | ha1
    · rcases List.mem_cons.mp hb with hb1 | hb1
      · rw [ha1, hb1]
      · exfalso
        apply hn.1
        rw [← ha1, hab]
        exact List.mem_map.mpr ⟨b, hb1, rfl⟩
    · rcases List.mem_cons.mp hb with hb1 | hb1
      · exfalso
        apply hn.1
        rw [← hb1, ← hab]
        exact List.mem_map.mpr ⟨a, ha1, rfl⟩
      · exact ih hn.2 ha1 hb1

theorem WF_users_map (db : DB) (g : User → User)
    (hid : ∀ u, (g u).userId = u.userId) (hwf : WF db) :
    WF { db with users := db.users.map g } := by
  rcases hwf with ⟨h1, h2, h3, h4, h5, h6⟩
  refine ⟨?_, h2, h3, ?_, h5, ?_⟩
  · simp only [List.map_map]
    have : (User.userId ∘ g) = User.userId := funext (fun u => hid u)
    rw [this]
    exact h1
  · intro rv hrv
    rcases h4 rv hrv with ⟨u, hu, huid⟩
    exact ⟨g u, List.mem_map.mpr ⟨u, hu, rfl⟩, by rw [hid u]; exact huid⟩
  · intro pr hpr
    rcases h6 pr hpr with ⟨u, hu, huid⟩
    exact ⟨g u, List.mem_map.mpr ⟨u, hu, rfl⟩, by rw [hid u]; exact huid⟩

theorem Sane_users_map (db : DB) (g : User → User)
    (hid : ∀ u, (g u).userId = u.userId) (hsane : SaneUserIds db) :
    SaneUserIds { db with users := db.users.map g } := by
  intro u hu
  rcases List.mem_map.mp hu with ⟨u0, hu0, hgu⟩
  rw [← hgu, hid u0]
  exact hsane u0 hu0

theorem findUser_users_map (db : DB) (g : User → User)
    (hid : ∀ u, (g u).userId = u.userId) (x : String) :
    findUser { db with users := db.users.map g } x = Option.map g (findUser db x) := by
  unfold findUser
  simp only []
  rw [List.find?_map]
  have : ((fun u => u.userId == x) ∘ g) = (fun u => u.userId == x) :=
    funext (fun u => by simp only [Function.comp_apply, hid u])
  rw [this]

theorem filterMap_openRow_pairs (dbD : DB) (tids : List String) :
    ∀ (l : List (String × String)), (∀ rv ∈ l, ∃ u ∈ dbD.users, u.userId = rv.2) →
    ((l.filterMap (openRow dbD tids)).map (fun oa => (oa.prId, oa.oldUserId))) =
      l.filter (fun rv => openPRB dbD rv.1 && tids.contains rv.2) := by
  intro l
  induction l with
  | nil => intro _; rfl
  | cons rv t ih =>
    intro hfk
    have hex := hfk rv (List.mem_cons_self rv t)
    rcases hex with ⟨u0, hu0, huid⟩
    rcases findUser_isSome_of_mem dbD u0 hu0 with ⟨u, hu⟩
    rw [huid] at hu
    have htail := ih (fun x hx => hfk x (List.mem_cons_of_mem rv hx))
    rw [List.filterMap_cons, List.filter_cons]
    cases hfp : findPR dbD rv.1 with
    | none =>
      have hopen : openPRB dbD rv.1 = false := by
        unfold openPRB
        rw [hfp]
      rw [hopen]
      simp only [Bool.false_and, Bool.false_eq_true, if_false]
      have hrow : openRow dbD tids rv = none := by
        unfold openRow
        rw [hfp]
      rw [hrow]
      exact htail
    | some pr =>
      have hopen : openPRB dbD rv.1 = (pr.status == PRStatus.OPEN) := by
        unfold openPRB
        rw [hfp]
      have hrow : openRow dbD tids rv =
          (if pr.status == PRStatus.OPEN && tids.contains rv.2 then
            some { prId := pr.id, authorId := pr.authorId,
                   oldUserId := u.userId, oldUserTeam := u.teamName }
          else none) := by
        unfold openRow
        rw [hfp, hu]
      by_cases hcond : (pr.status == PRStatus.OPEN && tids.contains rv.2) = true
      · rw [hrow, if_pos hcond, hopen, hcond]
        simp only [if_true, List.map_cons]
        rw [htail]
        have hprid : pr.id = rv.1 := (findPR_facts dbD rv.1 pr hfp).2
        have huid2 : u.userId = rv.2 := (findUser_facts dbD rv.2 u hu).2
        rw [hprid, huid2]
      · rw [hrow, if_neg hcond, hopen]
        have hcond2 : (pr.status == PRStatus.OPEN && tids.contains rv.2) = false :=
          Bool.not_eq_true _ ▸ eq_false_of_ne_true hcond
        rw [hcond2]
        simp only [Bool.false_eq_true, if_false]
        exact htail

theorem mem_filterMap_openRow (dbD : DB) (tids : List String) (l : List (String × String))
    (item : OpenAssignment) (h : item ∈ l.filterMap (openRow dbD tids)) :
    ∃ pr u, findPR dbD item.prId = some pr ∧ pr.authorId = item.authorId ∧
      findUser dbD item.oldUserId = some u ∧ u.teamName = item.oldUserTeam ∧
      pr.status = PRStatus.OPEN ∧ tids.contains item.oldUserId = true := by
  rcases List.mem_filterMap.mp h with ⟨rv, _, hrow⟩
  rcases hfp : findPR dbD rv.1 with _ | pr
  · have hrow2 : openRow dbD tids rv = none := by
      unfold openRow
      rw [hfp]
    rw [hrow2] at hrow
    exact absurd hrow (by simp)
  rcases hfu : findUser dbD rv.2 with _ | u
  · have hrow2 : openRow dbD tids rv = none := by
      unfold openRow
      rw [hfp, hfu]
    rw [hrow2] at hrow
    exact absurd hrow (by simp)
  have hrow2 : openRow dbD tids rv =
      (if pr.status == PRStatus.OPEN && tids.contains rv.2 then
        some { prId := pr.id, authorId := pr.authorId,
               oldUserId := u.userId, oldUserTeam := u.teamName }
      else none) := by
    unfold openRow
    rw [hfp, hfu]
  rw [hrow2] at hrow
  by_cases hcond : (pr.status == PRStatus.OPEN && tids.contains rv.2) = true
  · rw [if_pos hcond] at hrow
    have hitem := Option.some.inj hrow
    have hprid : pr.id = rv.1 := (findPR_facts dbD rv.1 pr hfp).2
    have huid : u.userId = rv.2 := (findUser_facts dbD rv.2 u hfu).2
    refine ⟨pr, u, ?_, ?_, ?_, ?_, ?_, ?_⟩
    · rw [← hitem]
      show findPR dbD pr.id = some pr
      rw [hprid]
      exact hfp
    · rw [← hitem]
    · rw [← hitem]
      show findUser dbD u.userId = some u
      rw [huid]
      exact hfu
    · rw [← hitem]
    · have hc2 := hcond
      rw [Bool.and_eq_true] at hc2
      exact beq_iff_eq.mp hc2.1
    · have hc2 := hcond
      rw [Bool.and_eq_true] at hc2
      rw [← hitem]
      show tids.contains u.userId = true
      rw [huid]
      exact hc2.2
  · rw [if_neg hcond] at hrow
    exact absurd hrow (by simp)

theorem bulk_ok_spec (md5 : String → String) (db : DB) (team : String) (ids : List String)
    (res : BulkDeactivateResult) (db2 : DB)
    (hwf : WF db) (hsane : SaneUserIds db)
    (hrun : runSvc (Service.BulkDeactivateAndReassign (pgRepo md5) team ids) db =
      (Except.ok res, db2)) :
    res.team = team ∧
    (∀ rv ∈ db2.reviewers, rv.2 ∈ res.deactivated → openPRB db rv.1 = true → False) ∧
    (res.reassignments.map (fun o => (o.prId, o.oldUserId))).Perm
      (db.reviewers.filter (fun rv => openPRB db rv.1 && res.deactivated.contains rv.2)) ∧
    (∀ out ∈ res.reassignments,
      (out.action = "replaced" ∧ ∃ c, out.replacedBy = some c) ∨
      (out.action = "removed" ∧ out.replacedBy = none)) ∧
    (∀ out ∈ res.reassignments, ∀ c, out.replacedBy = some c →
      (∃ uc ∈ db.users, uc.userId = c ∧ uc.isActive = true ∧ c ∉ res.deactivated ∧
        (∃ uo ∈ db.users, uo.userId = out.oldUserId ∧ uc.teamName = uo.teamName)) ∧
      c ∉ assignedReviewersOf db out.prId ∧
      (∀ pr, findPR db out.prId = some pr → c ≠ pr.authorId)) := by
  rw [runSvc_def] at hrun
  unfold Service.BulkDeactivateAndReassign at hrun
  simp only [RM.run_bind, pgRepo_WithTx, pgRepo_BulkDeactivateUsers,
    pgRepo_ListOpenAssignmentsByUsers] at hrun
  unfold pgWithTx PostgresRepo.BulkDeactivateUsers PostgresRepo.ListOpenAssignmentsByUsers at hrun
  simp only [RM.run_bind, RM.run_dbRead, RM.run_pure] at hrun
  rcases hpids : pgParseTextArray (pqStringArray ids) with _ | pids
  · rw [hpids] at hrun
    simp only [] at hrun
    exact absurd hrun (by simp)
  rw [hpids] at hrun
  simp only [] at hrun
  set target := (db.users.filter
      (fun u => u.teamName == team && pids.contains u.userId)).map (fun u => u.userId)
    with htarget
  by_cases hempty : target.isEmpty = true
  · simp only [hempty, if_true] at hrun
    simp only [List.isEmpty_nil, if_true, RM.run_pure] at hrun
    have hres : res = ⟨team, [], []⟩ := (Except.ok.inj (congrArg Prod.fst hrun)).symm
    have hdb2 : db2 = db := (congrArg Prod.snd hrun).symm
    subst hres
    subst hdb2
    refine ⟨rfl, ?_, ?_, ?_, ?_⟩
    · intro rv _ hmem _
      exact absurd hmem (List.not_mem_nil rv.2)
    · simp
    · intro out hout
      exact absurd hout (List.not_mem_nil out)
    · intro out hout
      exact absurd hout (List.not_mem_nil out)
  · have hempty2 : target.isEmpty = false := eq_false_of_ne_true hempty
    simp only [hempty2, Bool.false_eq_true, if_false] at hrun
    have htgt_sane : ∀ e ∈ target, saneId e = true := by
      intro e he
      rcases List.mem_map.mp he with ⟨ut, hutf, hutid⟩
      rw [← hutid]
      exact hsane ut (List.mem_filter.mp hutf).1
    have hparse2 : pgParseTextArray (pqStringArray target) = some target :=
      pgParse_pq_of_sane target htgt_sane
    rw [hparse2] at hrun
    simp only [] at hrun
    simp only [hempty2, Bool.false_eq_true, if_false, RM.run_bind, RM.run_dbRead] at hrun
    set g : User → User := (fun u =>
        if u.teamName == team && target.contains u.userId then
          { u with isActive := false } else u) with hg
    set dbD : DB := { db with users := db.users.map g } with hdbD
    rw [hparse2] at hrun
    simp only [] at hrun
    set items : List OpenAssignment :=
      sortK (fun oa => oa.prId) (List.filterMap (openRow dbD target) db.reviewers) with hitemsdef
    rcases hproc : Service.processOpenAssignments (pgRepo md5) items ⟨dbD, dbD⟩
      with ⟨pres, s1⟩
    rw [hproc] at hrun
    rcases pres with e | outs
    · simp only [] at hrun
      exact absurd hrun (by simp)
    simp only [RM.run_pure] at hrun
    have hres : res = ⟨team, target, outs⟩ := (Except.ok.inj (congrArg Prod.fst hrun)).symm
    have hdb2 : db2 = s1.txdb := (congrArg Prod.snd hrun).symm
    subst hres
    subst hdb2
    have hgid : ∀ u : User, (g u).userId = u.userId := by
      intro u
      rw [hg]
      by_cases h : (u.teamName == team && target.contains u.userId) = true
      · show (if u.teamName == team && target.contains u.userId then
            ({ u with isActive := false } : User) else u).userId = u.userId
        rw [if_pos h]
      · show (if u.teamName == team && target.contains u.userId then
            ({ u with isActive := false } : User) else u).userId = u.userId
        rw [if_neg h]
    have hwfD : WF dbD := WF_users_map db g hgid hwf
    have hsaneD : SaneUserIds dbD := Sane_users_map db g hgid hsane
    have hitemsane : ∀ item ∈ items, saneId item.authorId = true := by
      intro item hitem
      have hrowm : item ∈ List.filterMap (openRow dbD target) db.reviewers :=
        (sortK_mem _ _ _).mp hitem
      rcases mem_filterMap_openRow dbD target db.reviewers item hrowm
        with ⟨pr, u, hfp, hauth, _, _, _, _⟩
      have hprmem : pr ∈ db.prs := (findPR_facts dbD item.prId pr hfp).1
      rcases hwf.2.2.2.2.2 pr hprmem with ⟨ua, hua, huaid⟩
      rw [← hauth, ← huaid]
      exact hsane ua hua
    rcases processOpenAssignments_ok md5 items ⟨dbD, dbD⟩ outs s1 hwfD hsaneD hitemsane hproc
      with ⟨ha, hb, hc, hd, he⟩
    have htgtmem : ∀ x ∈ target, ∃ ut ∈ db.users, ut.userId = x ∧ (ut.teamName == team) = true := by
      intro x hx
      rcases List.mem_map.mp hx with ⟨ut, hutf, hutid⟩
      have hf := List.mem_filter.mp hutf
      have hcond := hf.2
      rw [Bool.and_eq_true] at hcond
      exact ⟨ut, hf.1, hutid, hcond.1⟩
    have hinactive : ∀ u2 ∈ dbD.users, u2.userId ∈ target → u2.isActive = false := by
      intro u2 hu2 hxt
      rcases List.mem_map.mp hu2 with ⟨u0, hu0, hgu⟩
      rcases htgtmem u2.userId hxt with ⟨ut, hut, hutid, hutteam⟩
      have hu0id : u0.userId = u2.userId := by
        rw [← hgu]
        exact (hgid u0).symm
      have hu0ut : u0 = ut :=
        nodup_userId_inj db.users hwf.1 u0 hu0 ut hut (by rw [hu0id, hutid])
      have hcond : (u0.teamName == team && target.contains u0.userId) = true := by
        rw [Bool.and_eq_true]
        constructor
        · rw [hu0ut]
          exact hutteam
        · rw [hu0id]
          exact (contains_eq_true_iff target u2.userId).mpr hxt
      rw [← hgu, hg]
      show (if u0.teamName == team && target.contains u0.userId then
          ({ u0 with isActive := false } : User) else u0).isActive = false
      rw [if_pos hcond]
    have hactrow : ∀ u2 ∈ dbD.users, u2.isActive = true →
        u2 ∈ db.users ∧ u2.userId ∉ target := by
      intro u2 hu2 hact
      have hnt : u2.userId ∉ target := by
        intro hxt
        rw [hinactive u2 hu2 hxt] at hact
        exact Bool.noConfusion hact
      rcases List.mem_map.mp hu2 with ⟨u0, hu0, hgu⟩
      by_cases hcond : (u0.teamName == team && target.contains u0.userId) = true
      · exfalso
        have hfalse : u2.isActive = false := by
          rw [← hgu, hg]
          show (if u0.teamName == team && target.contains u0.userId then
              ({ u0 with isActive := false } : User) else u0).isActive = false
          rw [if_pos hcond]
        rw [hfalse] at hact
        exact Bool.noConfusion hact
      · have hu2u0 : u2 = u0 := by
          rw [← hgu, hg]
          show (if u0.teamName == team && target.contains u0.userId then
              ({ u0 with isActive := false } : User) else u0) = u0
          rw [if_neg hcond]
        rw [hu2u0] at hnt ⊢
        exact ⟨hu0, hnt⟩
    have hitem_perm : (items.map (fun i => (i.prId, i.oldUserId))).Perm
        (db.reviewers.filter (fun rv => openPRB db rv.1 && target.contains rv.2)) := by
      have h1 : (items.map (fun i => (i.prId, i.oldUserId))).Perm
          ((List.filterMap (openRow dbD target) db.reviewers).map
            (fun i => (i.prId, i.oldUserId))) := sortK_map_perm _ _ _
      have h2 : (List.filterMap (openRow dbD target) db.reviewers).map
          (fun i => (i.prId, i.oldUserId)) =
          db.reviewers.filter (fun rv => openPRB dbD rv.1 && target.contains rv.2) :=
        filterMap_openRow_pairs dbD target db.reviewers hwfD.2.2.2.1
      have h3 : db.reviewers.filter (fun rv => openPRB dbD rv.1 && target.contains rv.2) =
          db.reviewers.filter (fun rv => openPRB db rv.1 && target.contains rv.2) := rfl
      rw [h2, h3] at h1
      exact h1
    refine ⟨rfl, ?_, ?_, ?_, ?_⟩
    · intro rv hrv hmem hopen
      rcases hd rv hrv with ⟨hm, hnp⟩ | ⟨u2, hu2, hact, huid⟩
      · apply hnp
        have hfilt : rv ∈ db.reviewers.filter
            (fun rv => openPRB db rv.1 && target.contains rv.2) := by
          apply List.mem_filter.mpr
          refine ⟨hm, ?_⟩
          rw [Bool.and_eq_true]
          exact ⟨hopen, (contains_eq_true_iff _ _).mpr hmem⟩
        exact (hitem_perm.mem_iff).mpr hfilt
      · have h4 := hactrow u2 hu2 hact
        apply h4.2
        rw [huid]
        exact hmem
    · simp only []
      rw [hb]
      exact hitem_perm
    · exact hc
    · intro out hout c hrep
      rcases he out hout c hrep with
        ⟨item, hitem, hiprId, hioldId, uc, hucmem, hucid, hucact, hucteam, hnass, hnauth⟩
      have h5 := hactrow uc hucmem hucact
      have hrowm : item ∈ List.filterMap (openRow dbD target) db.reviewers :=
        (sortK_mem _ _ _).mp hitem
      rcases mem_filterMap_openRow dbD target db.reviewers item hrowm
        with ⟨pr, uD, hfp, hauth, hfu, hteamEq, hopenpr, _⟩
      have hfu3 : Option.map g (findUser db item.oldUserId) = some uD := by
        rw [← findUser_users_map db g hgid item.oldUserId]
        exact hfu
      rcases hfo : findUser db item.oldUserId with _ | uo
      · rw [hfo] at hfu3
        exact absurd hfu3 (by simp)
      rw [hfo] at hfu3
      have hgD : g uo = uD := Option.some.inj hfu3
      have huo := findUser_facts db item.oldUserId uo hfo
      have hteam2 : uD.teamName = uo.teamName := by
        rw [← hgD, hg]
        by_cases hcond : (uo.teamName == team && target.contains uo.userId) = true
        · show (if uo.teamName == team && target.contains uo.userId then
              ({ uo with isActive := false } : User) else uo).teamName = uo.teamName
          rw [if_pos hcond]
        · show (if uo.teamName == team && target.contains uo.userId then
              ({ uo with isActive := false } : User) else uo).teamName = uo.teamName
          rw [if_neg hcond]
      refine ⟨⟨uc, h5.1, hucid, hucact, ?_, uo, huo.1, ?_, ?_⟩, ?_, ?_⟩
      · rw [← hucid]
        exact h5.2
      · rw [huo.2]
        exact hioldId
      · rw [hucteam, ← hteamEq]
        exact hteam2
      · exact hnass
      · intro pr2 hpr2
        have hfp2 : findPR db out.prId = some pr := by
          rw [← hiprId]
          exact hfp
        rw [hfp2] at hpr2
        have hpr2pr : pr = pr2 := Option.some.inj hpr2
        rw [← hpr2pr, hauth]
        exact hnauth

/-- C4 (amended): after every successful BulkDeactivateAndReassign on a
well-formed store with well-behaved user ids, no deactivated user id remains
in the assignment set of any OPEN pull request (assignments on MERGED pull
requests are retained), and the returned outcomes cover each open-PR
assignment that referenced a deactivated id exactly once, each outcome being
either a replacement or a removal. -/
theorem bulkDeactivate_purges_open_prs (md5 : String → String) (db : DB) (team : String)
    (ids : List String) (res : BulkDeactivateResult) (db2 : DB)
    (hwf : WF db) (hsane : SaneUserIds db)
    (hrun : runSvc (Service.BulkDeactivateAndReassign (pgRepo md5) team ids) db =
      (Except.ok res, db2)) :
    (∀ rv ∈ db2.reviewers, rv.2 ∈ res.deactivated → openPRB db rv.1 = true → False) ∧
    (res.reassignments.map (fun o => (o.prId, o.oldUserId))).Perm
      (db.reviewers.filter (fun rv => openPRB db rv.1 && res.deactivated.contains rv.2)) ∧
    (∀ out ∈ res.reassignments,
      (out.action = "replaced" ∧ ∃ c, out.replacedBy = some c) ∨
      (out.action = "removed" ∧ out.replacedBy = none)) := by
  rcases bulk_ok_spec md5 db team ids res db2 hwf hsane hrun with ⟨_, h1, h2, h3, _⟩
  exact ⟨h1, h2, h3⟩

/-- C6 (amended): on a well-formed store with well-behaved user ids, every
replacement reviewer chosen — by Reassign or by BulkDeactivateAndReassign —
is a stored user distinct from the PR's author and from every reviewer
assigned to that PR in the committed state at the start of the call, belongs
to the replaced user's team, and was active at selection time (for the bulk
path: not itself among the deactivated ids); within one bulk call each pick
reads the committed pre-call state, so the same replacement may recur across
outcomes of the same PR. -/
theorem replacement_validity (md5 : String → String) (db : DB)
    (hwf : WF db) (hsane : SaneUserIds db) :
    (∀ p o prOut c db2,
      runSvc (Service.Reassign (pgRepo md5) p o) db = (Except.ok (prOut, c), db2) →
      ∃ uc ∈ db.users, uc.userId = c ∧ uc.isActive = true ∧
        c ∉ assignedReviewersOf db p ∧
        (∃ pr0, findPR db p = some pr0 ∧ c ≠ pr0.authorId) ∧
        (∃ uo ∈ db.users, uo.userId = o ∧ uc.teamName = uo.teamName)) ∧
    (∀ team ids res db2,
      runSvc (Service.BulkDeactivateAndReassign (pgRepo md5) team ids) db =
        (Except.ok res, db2) →
      ∀ out ∈ res.reassignments, ∀ c, out.replacedBy = some c →
        out.action = "replaced" ∧
        (∃ uc ∈ db.users, uc.userId = c ∧ uc.isActive = true ∧ c ∉ res.deactivated ∧
          (∃ uo ∈ db.users, uo.userId = out.oldUserId ∧ uc.teamName = uo.teamName)) ∧
        c ∉ assignedReviewersOf db out.prId ∧
        (∀ pr, findPR db out.prId = some pr → c ≠ pr.authorId)) := by
  constructor
  · intro p o prOut c db2 hrun
    rcases reassign_cases md5 db p o hwf hsane with
      ⟨_, heq⟩ | ⟨pr, _, _, heq⟩ | ⟨pr, _, _, _, heq⟩ | ⟨pr, ou, _, _, _, _, _, heq⟩ |
      ⟨pr, ou, uc, hfind, hst, hmem, hou, hucmem, hteam, hact, hncont, hnauth, heq⟩
    · rw [heq] at hrun
      exact absurd hrun (by simp)
    · rw [heq] at hrun
      exact absurd hrun (by simp)
    · rw [heq] at hrun
      exact absurd hrun (by simp)
    · rw [heq] at hrun
      exact absurd hrun (by simp)
    · rw [heq] at hrun
      have hpair := Except.ok.inj (congrArg Prod.fst hrun)
      have hc : uc.userId = c := congrArg Prod.snd hpair
      have hofacts := findUser_facts db o ou hou
      refine ⟨uc, hucmem, hc, hact, ?_, ⟨pr, hfind, ?_⟩, ⟨ou, hofacts.1, hofacts.2, hteam⟩⟩
      · rw [← hc]
        exact hncont
      · rw [← hc]
        exact hnauth
  · intro team ids res db2 hrun out hout c hrep
    rcases bulk_ok_spec md5 db team ids res db2 hwf hsane hrun with ⟨_, _, _, h3, h4⟩
    have haction : out.action = "replaced" := by
      rcases h3 out hout with ⟨ha1, _⟩ | ⟨_, hnone⟩
      · exact ha1
      · rw [hnone] at hrep
        exact absurd hrep (by simp)
    exact ⟨haction, h4 out hout c hrep⟩

/- ## Concrete witness states -/

def w1Db : DB :=
  ⟨["t"],
   [⟨"a", "a", "t", true⟩, ⟨"b", "b", "t", true⟩, ⟨"c", "c", "t", true⟩],
   [], [], 0⟩

def w1Pr : PullRequest := ⟨"p1", "n", "a", PRStatus.OPEN, ["b", "c"], some 0, none⟩

def w2Db : DB :=
  ⟨["t"], [⟨"a", "a", "t", true⟩],
   [⟨"p1", "f", "a", PRStatus.MERGED, [], some 0, some 5⟩], [], 9⟩

def w2Pr : PullRequest := ⟨"p1", "f", "a", PRStatus.MERGED, [], some 0, some 5⟩

def c3WDb : DB :=
  ⟨["t"], [⟨"a", "a", "t", true⟩, ⟨"b", "b", "t", true⟩], [], [], 0⟩

def w4Db : DB :=
  ⟨["t"],
   [⟨"a", "a", "t", true⟩, ⟨"b", "b", "t", true⟩, ⟨"c", "c", "t", true⟩],
   [⟨"p1", "f", "a", PRStatus.OPEN, [], some 0, none⟩],
   [("p1", "b")], 0⟩

def w4Res : BulkDeactivateResult := ⟨"t", ["b"], [⟨"p1", "b", "replaced", some "c"⟩]⟩

def w4Db2 : DB :=
  ⟨["t"],
   [⟨"a", "a", "t", true⟩, ⟨"b", "b", "t", false⟩, ⟨"c", "c", "t", true⟩],
   [⟨"p1", "f", "a", PRStatus.OPEN, [], some 0, none⟩],
   [("p1", "c")], 0⟩

def w6Out : BulkReassignOutcome := ⟨"p1", "b", "replaced", some "c"⟩

def w8Db1 : DB := ⟨["t"], [⟨"a", "a", "t", true⟩, ⟨"d", "d", "t", false⟩], [], [], 0⟩

def w8Db2 : DB := ⟨["t", "s"], [⟨"a", "a", "t", true⟩, ⟨"e", "e", "s", true⟩], [], [], 7⟩

/- ## Witnesses: the general theorems applied on closed states -/

theorem createPR_reviewer_set_witness :
    WF w1Db ∧ SaneUserIds w1Db ∧
    (runSvc (Service.CreatePR (pgRepo md5id) "p1" "n" "a") w1Db).1 = Except.ok w1Pr ∧
    (∃ au, findUser w1Db "a" = some au ∧
      w1Pr.assignedReviewers.length =
        min 2 ((w1Db.users.filter (fun u =>
          u.teamName == au.teamName && u.isActive && !(u.userId == "a"))).length) ∧
      "a" ∉ w1Pr.assignedReviewers ∧
      w1Pr.assignedReviewers.Nodup) :=
  ⟨by decide, by decide, rfl,
   createPR_reviewer_set md5id w1Db "p1" "n" "a" w1Pr (by decide) (by decide) rfl⟩

theorem mergePR_idempotent_witness :
    findPR w2Db "p1" = some w2Pr ∧ w2Pr.status = PRStatus.MERGED ∧
    runSvc (Service.MergePR (pgRepo md5id) "p1") w2Db =
      (Except.ok { w2Pr with assignedReviewers := assignedReviewersOf w2Db "p1" }, w2Db) :=
  ⟨rfl, rfl, (mergePR_idempotent md5id w2Db "p1" w2Pr rfl).1 rfl⟩

theorem reassign_error_taxonomy_witness :
    WF c3WDb ∧ SaneUserIds c3WDb ∧
    ((runSvc (Service.Reassign (pgRepo md5id) "p1" "b") c3WDb).1 =
        Except.error (wrapCode ErrNotFound "PR not found") ↔ findPR c3WDb "p1" = none) :=
  ⟨by decide, by decide,
   (reassign_error_taxonomy md5id c3WDb "p1" "b" (by decide) (by decide)).1⟩

theorem bulkDeactivate_purges_open_prs_witness :
    WF w4Db ∧ SaneUserIds w4Db ∧
    runSvc (Service.BulkDeactivateAndReassign (pgRepo md5id) "t" ["b"]) w4Db =
      (Except.ok w4Res, w4Db2) ∧
    (w4Res.reassignments.map (fun o => (o.prId, o.oldUserId))).Perm
      (w4Db.reviewers.filter
        (fun rv => openPRB w4Db rv.1 && w4Res.deactivated.contains rv.2)) :=
  ⟨by decide, by decide, rfl,
   (bulkDeactivate_purges_open_prs md5id w4Db "t" ["b"] w4Res w4Db2
     (by decide) (by decide) rfl).2.1⟩

theorem replacement_validity_witness :
    WF w4Db ∧ SaneUserIds w4Db ∧ w6Out ∈ w4Res.reassignments ∧
    "c" ∉ assignedReviewersOf w4Db w6Out.prId :=
  ⟨by decide, by decide, by decide,
   ((replacement_validity md5id w4Db (by decide) (by decide)).2 "t" ["b"] w4Res w4Db2 rfl
     w6Out (by decide) "c" rfl).2.2.1⟩

theorem pickReviewers_deterministic_witness :
    w8Db1.users.filter (fun u => u.teamName == "t" && u.isActive) =
      w8Db2.users.filter (fun u => u.teamName == "t" && u.isActive) ∧
    pickReviewersQuery md5id w8Db1 "p1" "t" [] 2 =
      pickReviewersQuery md5id w8Db2 "p1" "t" [] 2 :=
  ⟨by decide, pickReviewers_deterministic md5id "p1" "t" [] 2 w8Db1 w8Db2 (by decide)⟩

theorem setIsActive_frame_witness :
    (runSvc (Service.SetIsActive (pgRepo md5id) "a" false) w8Db1).2.reviewers =
      w8Db1.reviewers :=
  (setIsActive_frame md5id "a" false w8Db1).1

theorem statsAssignments_total_and_default_witness :
    runSvc (Service.StatsAssignments (pgRepo md5id) "bogus") w4Db =
      (Except.ok ⟨some (statsByUserRows w4Db), some (statsByPRRows w4Db)⟩, w4Db) ∧
    runSvc (Service.StatsAssignments (pgRepo md5id) "bogus") w4Db =
      runSvc (Service.StatsAssignments (pgRepo md5id) "all") w4Db :=
  (statsAssignments_total_and_default md5id "bogus" w4Db).2 (by decide) (by decide)
